import Mathlib

/-!
# Verification model of the BRAW render-farm coordinator

A shallow embedding of the coordination store and worker runtime of the
`braw_batch_ui` repository.  The SQLite-backed store
(`braw_batch_ui/farm_db.py`) is modelled as a pure state
(`FarmDB`: lists of job, frame and worker rows), and each store operation is
translated into a pure function on that state.  ISO-timestamp strings, which
SQLite compares lexicographically (a comparison that agrees with chronological
order for that format), are modelled as natural numbers; frame indices, which
are nonnegative in every submitted job, are modelled as naturals as well.
Paths built with `pathlib` are modelled as lists of path components.
-/

namespace BrawFarm

/-- Job status values of `farm_db.JobStatus`. -/
inductive JobStatus
  | pending
  | inProgress
  | completed
  | excluded
  | paused
  | failed
deriving DecidableEq, Repr

/-- Frame status values of `farm_db.FrameStatus`. -/
inductive FrameStatus
  | pending
  | claimed
  | completed
  | failed
deriving DecidableEq, Repr

/-- The eye of a frame; the source stores the strings "left", "right", "sbs". -/
inductive Eye
  | left
  | right
  | sbs
deriving DecidableEq, Repr

/-- The string stored in the `eye` column for each `Eye` value. -/
def Eye.str : Eye → String
  | .left => "left"
  | .right => "right"
  | .sbs => "sbs"

/-- Rank of an eye under SQLite's TEXT ordering of the stored strings:
`"left" < "right" < "sbs"` alphabetically, hence ranks 0 < 1 < 2. -/
def Eye.key : Eye → Nat
  | .left => 0
  | .right => 1
  | .sbs => 2

/-- A row of the `frames` table. -/
structure FrameRow where
  jobId : String
  frameIdx : Nat
  eye : Eye
  status : FrameStatus
  workerId : Option String
  claimedAt : Option Nat
  completedAt : Option Nat
  retryCount : Nat
deriving DecidableEq, Repr

/-- A row of the `jobs` table (the `Job` dataclass of `farm_db.py`). -/
structure JobRow where
  jobId : String
  poolId : String
  clipPath : String
  outputDir : String
  startFrame : Nat
  endFrame : Nat
  eyes : List Eye
  format : String
  separateFolders : Bool
  useAces : Bool
  colorInputSpace : String
  colorOutputSpace : String
  useStmap : Bool
  stmapPath : String
  status : JobStatus
  priority : Nat
  createdAt : Nat
  createdBy : String
deriving DecidableEq, Repr

/-- A row of the `workers` table. -/
structure WorkerRow where
  workerId : String
  poolId : String
  hostname : String
  ip : String
  status : String
  currentJobId : String
  framesCompleted : Nat
  lastHeartbeat : Nat
deriving DecidableEq, Repr

/-- The coordination store: the three tables touched by the claims
(the `pools` table is not read by any modelled operation). -/
structure FarmDB where
  jobs : List JobRow
  frames : List FrameRow
  workers : List WorkerRow
deriving DecidableEq, Repr

/-- SQL comparison `ts < threshold` on a nullable timestamp column:
`NULL < x` is NULL, which an SQL `WHERE` treats as false. -/
def tsBefore (t : Option Nat) (threshold : Nat) : Bool :=
  match t with
  | some x => decide (x < threshold)
  | none => false

/-- The expiry sweep inside `FarmDatabase.claim_frames`:
`UPDATE frames SET status='pending', worker_id=NULL, claimed_at=NULL
 WHERE status='claimed' AND claimed_at < threshold`.
Note that the sweep does not touch `retry_count`. -/
def sweepExpired (threshold : Nat) (f : FrameRow) : FrameRow :=
  if f.status == FrameStatus.claimed && tsBefore f.claimedAt threshold then
    { f with status := FrameStatus.pending, workerId := none, claimedAt := none }
  else f

/-- Job statuses admitted by the scheduler's candidate query:
`j.status NOT IN ('excluded', 'paused', 'completed')`. -/
def jobEligible (j : JobRow) : Bool :=
  !(j.status == JobStatus.excluded || j.status == JobStatus.paused
    || j.status == JobStatus.completed)

/-- The `frames JOIN jobs` candidate rows of the selection query in
`claim_frames`: pending frames paired with a matching job row of the pool
in an eligible status. -/
def candPairs (jobs : List JobRow) (pool : String) (frames : List FrameRow) :
    List (FrameRow × JobRow) :=
  frames.flatMap (fun f =>
    if f.status == FrameStatus.pending then
      (jobs.filter (fun j => j.jobId == f.jobId && j.poolId == pool
        && jobEligible j)).map (fun j => (f, j))
    else [])

/-- Strict precedence of the selection query's
`ORDER BY j.priority DESC, j.created_at, f.frame_idx, f.eye`. -/
def candKeyLt (a b : FrameRow × JobRow) : Prop :=
  b.2.priority < a.2.priority
    ∨ (a.2.priority = b.2.priority
      ∧ (a.2.createdAt < b.2.createdAt
        ∨ (a.2.createdAt = b.2.createdAt
          ∧ (a.1.frameIdx < b.1.frameIdx
            ∨ (a.1.frameIdx = b.1.frameIdx ∧ a.1.eye.key < b.1.eye.key)))))

instance candKeyLtDec (a b : FrameRow × JobRow) : Decidable (candKeyLt a b) := by
  unfold candKeyLt
  infer_instance

/-- Fold computing the first row that is minimal under a strict order,
modelling `ORDER BY ... LIMIT 1`. -/
def pickFirstMinAux (lt : α → α → Prop) [DecidableRel lt] :
    Option α → List α → Option α
  | acc, [] => acc
  | none, x :: rest => pickFirstMinAux lt (some x) rest
  | some a, x :: rest =>
      pickFirstMinAux lt (if lt x a then some x else some a) rest

/-- First minimal element of a list under a strict order (`none` iff empty). -/
def pickFirstMin (lt : α → α → Prop) [DecidableRel lt] (l : List α) : Option α :=
  pickFirstMinAux lt none l

/-- The pending frame indices of one job and eye at or after a start index,
in ascending order — the range-extension query of `claim_frames`:
`SELECT frame_idx FROM frames WHERE job_id=? AND eye=? AND status='pending'
 AND frame_idx >= ? ORDER BY frame_idx` (the `LIMIT` is applied by the
caller via `List.take`).  Note the query does not require the indices to be
consecutive. -/
def pendingIdxsFrom (frames : List FrameRow) (jobId : String) (eye : Eye)
    (startFrame : Nat) : List Nat :=
  List.insertionSort (· ≤ ·)
    ((frames.filter (fun g => g.jobId == jobId && g.eye == eye
      && g.status == FrameStatus.pending && startFrame ≤ g.frameIdx)).map
      (fun g => g.frameIdx))

/-- The lock-in update of `claim_frames` on one frame row:
`UPDATE frames SET status='claimed', worker_id=?, claimed_at=?
 WHERE job_id=? AND eye=? AND frame_idx IN (...)`. -/
def claimCond (jobId : String) (eye : Eye) (toClaim : List Nat)
    (g : FrameRow) : Bool :=
  g.jobId == jobId && g.eye == eye && toClaim.contains g.frameIdx

/-- The row update itself. -/
def claimUpdate (jobId : String) (eye : Eye) (toClaim : List Nat)
    (workerId : String) (now : Nat) (g : FrameRow) : FrameRow :=
  if claimCond jobId eye toClaim g then
    { g with status := FrameStatus.claimed, workerId := some workerId,
             claimedAt := some now }
  else g

/-- `UPDATE jobs SET status='in_progress' WHERE job_id=? AND status='pending'`. -/
def jobStartUpdate (jobId : String) (j : JobRow) : JobRow :=
  if j.jobId == jobId && j.status == JobStatus.pending then
    { j with status := JobStatus.inProgress }
  else j

/-- `FarmDatabase.claim_frames(pool_id, worker_id, batch_size)`.
`now` is the current timestamp and `threshold` the already-computed
claim-expiry bound `now - CLAIM_TIMEOUT_SEC`.  Returns the claimed range
`(job_id, start_frame, end_frame, eye)` (or `none`) together with the
post-transaction store. -/
def claimFrames (db : FarmDB) (pool workerId : String) (batchSize : Nat)
    (now threshold : Nat) : Option (String × Nat × Nat × Eye) × FarmDB :=
  let frames1 := db.frames.map (sweepExpired threshold)
  match pickFirstMin candKeyLt (candPairs db.jobs pool frames1) with
  | none => (none, { db with frames := frames1 })
  | some sel =>
    let jobId := sel.1.jobId
    let startFrame := sel.1.frameIdx
    let eye := sel.1.eye
    let toClaim := (pendingIdxsFrom frames1 jobId eye startFrame).take batchSize
    match toClaim.getLast? with
    | none => (none, { db with frames := frames1 })
    | some endFrame =>
      (some (jobId, startFrame, endFrame, eye),
       { db with
          frames := frames1.map (claimUpdate jobId eye toClaim workerId now),
          jobs := db.jobs.map (jobStartUpdate jobId) })

/-- The row update of `FarmDatabase.complete_frames`:
`UPDATE frames SET status='completed', completed_at=?
 WHERE job_id=? AND eye=? AND frame_idx BETWEEN ? AND ?
 AND status IN ('claimed','pending')` — deliberately without a `worker_id`
condition. -/
def completeCond (jobId : String) (startFrame endFrame : Nat) (eye : Eye)
    (f : FrameRow) : Bool :=
  f.jobId == jobId && f.eye == eye && startFrame ≤ f.frameIdx
    && f.frameIdx ≤ endFrame
    && (f.status == FrameStatus.claimed || f.status == FrameStatus.pending)

/-- The row update itself. -/
def completeRow (jobId : String) (startFrame endFrame : Nat) (eye : Eye)
    (now : Nat) (f : FrameRow) : FrameRow :=
  if completeCond jobId startFrame endFrame eye f then
    { f with status := FrameStatus.completed, completedAt := some now }
  else f

/-- Number of non-completed frames of a job:
`SELECT COUNT(*) FROM frames WHERE job_id=? AND status != 'completed'`. -/
def remainingCount (frames : List FrameRow) (jobId : String) : Nat :=
  (frames.filter (fun f => f.jobId == jobId
    && !(f.status == FrameStatus.completed))).length

/-- `FarmDatabase.complete_frames(job_id, start_frame, end_frame, eye,
worker_id)`.  The `worker_id` argument is unused by the SQL, so it is not a
parameter here.  If afterwards no non-completed frame of the job remains, the
job row is set to `completed`. -/
def completeFrames (db : FarmDB) (jobId : String) (startFrame endFrame : Nat)
    (eye : Eye) (now : Nat) : FarmDB :=
  let frames2 := db.frames.map (completeRow jobId startFrame endFrame eye now)
  let jobs2 :=
    if remainingCount frames2 jobId = 0 then
      db.jobs.map (fun j =>
        if j.jobId == jobId then { j with status := JobStatus.completed } else j)
    else db.jobs
  { db with frames := frames2, jobs := jobs2 }

/-- `FarmDatabase.release_frames(job_id, start_frame, end_frame, eye,
worker_id)`: revert the worker's rows in the range to pending and increment
their retry counts. -/
def releaseFrames (db : FarmDB) (jobId : String) (startFrame endFrame : Nat)
    (eye : Eye) (workerId : String) : FarmDB :=
  { db with frames := db.frames.map (fun f =>
      if f.jobId == jobId && f.eye == eye && startFrame ≤ f.frameIdx
          && f.frameIdx ≤ endFrame && f.workerId == some workerId then
        { f with status := FrameStatus.pending, workerId := none,
                 claimedAt := none, retryCount := f.retryCount + 1 }
      else f) }

/-- Row effect of the per-worker frame reset of `cleanup_offline_workers`:
`UPDATE frames SET status='pending', worker_id=NULL, claimed_at=NULL
 WHERE worker_id=? AND status='claimed'` (again no retry-count change). -/
def releaseClaimRow (workerId : String) (f : FrameRow) : FrameRow :=
  if f.workerId == some workerId && f.status == FrameStatus.claimed then
    { f with status := FrameStatus.pending, workerId := none, claimedAt := none }
  else f

/-- The per-worker frame reset applied to the whole `frames` table. -/
def releaseWorkerClaims (workerId : String) (frames : List FrameRow) :
    List FrameRow :=
  frames.map (releaseClaimRow workerId)

/-- Row effect of
`UPDATE workers SET status='offline', current_job_id='' WHERE worker_id=?`. -/
def markOfflineRow (workerId : String) (w : WorkerRow) : WorkerRow :=
  if w.workerId == workerId then
    { w with status := "offline", currentJobId := "" }
  else w

/-- The worker-offline update applied to the whole `workers` table. -/
def markWorkerOffline (workerId : String) (ws : List WorkerRow) : List WorkerRow :=
  ws.map (markOfflineRow workerId)

/-- The stale-worker query of `cleanup_offline_workers`:
`SELECT worker_id FROM workers WHERE last_heartbeat < ?`, with `threshold`
the precomputed `now - HEARTBEAT_TIMEOUT_SEC`. -/
def offlineIds (db : FarmDB) (threshold : Nat) : List String :=
  (db.workers.filter (fun w => w.lastHeartbeat < threshold)).map
    (fun w => w.workerId)

/-- `FarmDatabase.cleanup_offline_workers()`: collect the stale workers,
then per worker release its claimed frames and mark its row offline. -/
def cleanupOfflineWorkers (db : FarmDB) (threshold : Nat) : FarmDB :=
  (offlineIds db threshold).foldl (fun acc wid =>
    { acc with frames := releaseWorkerClaims wid acc.frames,
               workers := markWorkerOffline wid acc.workers }) db

/-- `range(start_frame, end_frame + 1)`. -/
def frameRange (startFrame endFrame : Nat) : List Nat :=
  (List.range (endFrame + 1 - startFrame)).map (fun i => startFrame + i)

/-- The frame rows inserted by `FarmDatabase.submit_job` for a job. -/
def newFrameRows (job : JobRow) : List FrameRow :=
  (frameRange job.startFrame job.endFrame).flatMap (fun idx =>
    job.eyes.map (fun e =>
      { jobId := job.jobId, frameIdx := idx, eye := e,
        status := FrameStatus.pending, workerId := none, claimedAt := none,
        completedAt := none, retryCount := 0 }))

/-- `FarmDatabase.submit_job(job)`: one transaction inserting the job row and
all derived frame rows; on an integrity violation (duplicate job id, or
duplicate `(job, frame, eye)` keys when `eyes` repeats an eye) the whole
transaction rolls back and the call reports failure (`none`).  There is no
validation of `start_frame <= end_frame`: an empty range simply yields zero
frame rows. -/
def submitJob (db : FarmDB) (job : JobRow) : Option FarmDB :=
  if db.jobs.any (fun j => j.jobId == job.jobId) then none
  else if !(decide ((newFrameRows job).map
      (fun f => (f.jobId, f.frameIdx, f.eye))).Nodup) then none
  else some { db with jobs := db.jobs ++ [job],
                      frames := db.frames ++ newFrameRows job }

/-- `SELECT * FROM jobs WHERE job_id = ?` (`FarmDatabase.get_job`). -/
def getJob (db : FarmDB) (jobId : String) : Option JobRow :=
  db.jobs.find? (fun j => j.jobId == jobId)

/-- The job record constructed by `FarmManagerV2.submit_job` from a job
specification: status starts `pending`, `created_at` is the submission time,
`created_by` the submitting hostname. -/
def mkManagerJob (newJobId clipPath outputDir : String)
    (startFrame endFrame : Nat) (eyes : List Eye) (poolId format : String)
    (separateFolders useAces : Bool) (colorIn colorOut : String)
    (useStmap : Bool) (stmapPath : String) (priority : Nat) (now : Nat)
    (hostname : String) : JobRow :=
  { jobId := newJobId, poolId := poolId, clipPath := clipPath,
    outputDir := outputDir, startFrame := startFrame, endFrame := endFrame,
    eyes := eyes, format := format, separateFolders := separateFolders,
    useAces := useAces, colorInputSpace := colorIn,
    colorOutputSpace := colorOut, useStmap := useStmap,
    stmapPath := stmapPath, status := JobStatus.pending, priority := priority,
    createdAt := now, createdBy := hostname }

/-! ## Output paths (`FarmManagerV2.get_output_file_path`)

Python builds `f"{clip}_{frame_idx:06d}{ext}"` strings and `pathlib` paths.
Strings stay strings; a path is modelled as its list of components, the first
being the job's output directory. -/

/-- Decimal digit characters. -/
def digitChar10 : Nat → Char
  | 0 => '0'
  | 1 => '1'
  | 2 => '2'
  | 3 => '3'
  | 4 => '4'
  | 5 => '5'
  | 6 => '6'
  | 7 => '7'
  | 8 => '8'
  | _ => '9'

/-- Numeric value of a decimal digit character. -/
def digVal (c : Char) : Nat :=
  c.toNat - 48

/-- Most-significant-first decimal digits of `n`, with explicit structural
fuel (any fuel with `n < 10 ^ fuel` is exact). -/
def digitsAux : Nat → Nat → List Char
  | 0, _ => []
  | fuel + 1, n =>
    if n < 10 then [digitChar10 n]
    else digitsAux fuel (n / 10) ++ [digitChar10 (n % 10)]

/-- The decimal representation of `n` (the digits of Python's `"%d" % n`). -/
def decDigits (n : Nat) : List Char :=
  digitsAux (n + 1) n

/-- Python's `f"{n:06d}"` for a nonnegative `n`: the decimal representation
left-padded with zeros to at least six characters. -/
def pad6 (n : Nat) : String :=
  String.mk (List.replicate (6 - (decDigits n).length) '0' ++ decDigits n)

/-- Verification helper (not from the source): decode a most-significant-first
decimal digit string back to the number it denotes; used to prove that the
zero-padded frame label is injective. -/
def decodeDigits (l : List Char) : Nat :=
  l.foldl (fun a c => a * 10 + digVal c) 0

/-- `".exr" if job.format == "exr" else ".ppm"`. -/
def extOf (format : String) : String :=
  if format == "exr" then ".exr" else ".ppm"

/-- The final path component of a string path (`pathlib.Path(s).name`). -/
def lastNameChars (s : List Char) : List Char :=
  s.foldl (fun acc c => if c = '/' then [] else acc ++ [c]) []

/-- Split a character list at its last `'.'`: `some (before, fromDot)` when a
dot occurs, `none` otherwise. -/
def splitLastDot : List Char → Option (List Char × List Char)
  | [] => none
  | c :: rest =>
    match splitLastDot rest with
    | some (pre, suf) => some (c :: pre, suf)
    | none => if c = '.' then some ([], c :: rest) else none

/-- `pathlib.Path(s).stem`: the final component with its suffix removed; the
suffix is the part from the last dot, provided that dot is neither the first
nor the last character of the name. -/
def pyStem (s : String) : String :=
  let name := lastNameChars s.data
  match splitLastDot name with
  | none => String.mk name
  | some (pre, suf) =>
    if pre ≠ [] ∧ 2 ≤ suf.length then String.mk pre else String.mk name

/-- The final component of a path with its extension kept
(`os.path.basename`). -/
def pyBasename (s : String) : String :=
  String.mk (lastNameChars s.data)

/-- The file name `f"{clip}_{frame_idx:06d}{ext}"`. -/
def outputFileName (clip : String) (frameIdx : Nat) (format : String) : String :=
  clip ++ "_" ++ pad6 frameIdx ++ extOf format

/-- `FarmManagerV2.get_output_file_path(job, frame_idx, eye)`, as the list of
path components below (and including) the job's output directory.  The clip
label is `Path(job.clip_path).stem`. -/
def getOutputFilePath (job : JobRow) (frameIdx : Nat) (eye : Eye) :
    List String :=
  let clip := pyStem job.clipPath
  if eye = Eye.sbs then
    [job.outputDir, "SBS", outputFileName clip frameIdx job.format]
  else if job.separateFolders then
    [job.outputDir, if eye = Eye.left then "L" else "R",
     outputFileName clip frameIdx job.format]
  else
    [job.outputDir,
     clip ++ (if eye = Eye.left then "_L" else "_R") ++ "_" ++ pad6 frameIdx
       ++ extOf job.format]

/-- Modelled from the spec: the output-path scheme of spec §6 with
`clip = basename(clip_path)` taken literally (the full final component,
extension included).  Declared only to compare the spec's wording with the
source's `Path(clip_path).stem`. -/
def specOutputFilePath (job : JobRow) (frameIdx : Nat) (eye : Eye) :
    List String :=
  let clip := pyBasename job.clipPath
  if eye = Eye.sbs then
    [job.outputDir, "SBS", outputFileName clip frameIdx job.format]
  else if job.separateFolders then
    [job.outputDir, if eye = Eye.left then "L" else "R",
     outputFileName clip frameIdx job.format]
  else
    [job.outputDir,
     clip ++ (if eye = Eye.left then "_L" else "_R") ++ "_" ++ pad6 frameIdx
       ++ extOf job.format]

/-! ## Worker runtime (`farm_ui_v2.WorkerThreadV2`) -/

/-- Fate of the spawned converter in `process_frame_range`: `subprocess.run`
returned with an exit code, raised `TimeoutExpired`, or raised some other
exception. -/
inductive RunOutcome
  | exited (code : Int)
  | timedOut
  | raised
deriving DecidableEq, Repr

/-- The success decision of `WorkerThreadV2.process_frame_range`: when the
converter process returns, a nonzero exit code is only logged and the result
is the on-disk existence of the range's first expected output file; a timeout
or exception yields `False`. -/
def processFrameRangeResult (outcome : RunOutcome) (firstFileOnDisk : Bool) :
    Bool :=
  match outcome with
  | .exited _ => firstFileOnDisk
  | .timedOut => false
  | .raised => false

/-- The directories `process_frame_range` creates (as component lists) before
composing the converter command line. -/
def dirsCreated (job : JobRow) (eye : Eye) : List (List String) :=
  if job.separateFolders then
    if eye = Eye.sbs then [[job.outputDir, "SBS"]]
    else [[job.outputDir, "L"], [job.outputDir, "R"]]
  else [[job.outputDir]]

/-- Reconciliation of one finished range task in `WorkerThreadV2.run`: a
successful task completes the range, any other outcome releases it. -/
def reconcileRange (db : FarmDB) (jobId : String) (startFrame endFrame : Nat)
    (eye : Eye) (workerId : String) (now : Nat) (success : Bool) : FarmDB :=
  if success then completeFrames db jobId startFrame endFrame eye now
  else releaseFrames db jobId startFrame endFrame eye workerId

/-! ## Re-render hook (`FarmUIV2.create_rerender_job`) -/

/-- The grouping loop of `FarmUIV2.group_frames_to_ranges` over the sorted
tail, carrying the current range `[start, cur]`. -/
def groupLoop (start cur : Nat) : List Nat → List (Nat × Nat)
  | [] => [(start, cur)]
  | f :: rest =>
    if f = cur + 1 then groupLoop start f rest
    else (start, cur) :: groupLoop f f rest

/-- `FarmUIV2.group_frames_to_ranges(frames)`: sort, then group consecutive
indices into maximal `(start, end)` ranges. -/
def groupFramesToRanges (frames : List Nat) : List (Nat × Nat) :=
  match List.insertionSort (· ≤ ·) frames with
  | [] => []
  | f :: rest => groupLoop f f rest

/-- `FarmUIV2.create_rerender_job(original_job_id, error_frames)`: look up the
source job, group the bad frames, and submit through
`FarmManagerV2.submit_job` a new job with the source job's parameters,
the union range of the groups, and priority `min(priority + 10, 100)`.
Returns the constructed job together with the store returned by the
submission (`none` when the source job does not exist or no ranges form). -/
def createRerenderJob (db : FarmDB) (origJobId : String)
    (errorFrames : List Nat) (newJobId : String) (now : Nat)
    (hostname : String) : Option (JobRow × Option FarmDB) :=
  match getJob db origJobId with
  | none => none
  | some orig =>
    match groupFramesToRanges errorFrames with
    | [] => none
    | r :: rs =>
      let job := mkManagerJob newJobId orig.clipPath orig.outputDir
        r.1 (((r :: rs).getLast (by simp)).2) orig.eyes orig.poolId
        orig.format orig.separateFolders orig.useAces orig.colorInputSpace
        orig.colorOutputSpace orig.useStmap orig.stmapPath
        (min (orig.priority + 10) 100) now hostname
      some (job, submitJob db job)

/-! ## Concrete fixtures used by witnesses and counterexamples -/

/-- A baseline job row: clip `dir/A.braw`, output `out`, frames 0–2, left eye,
EXR, no folder separation, priority 50, pool `p`. -/
def templateJob : JobRow :=
  { jobId := "j", poolId := "p", clipPath := "dir/A.braw", outputDir := "out",
    startFrame := 0, endFrame := 2, eyes := [Eye.left], format := "exr",
    separateFolders := false, useAces := true, colorInputSpace := "cin",
    colorOutputSpace := "cout", useStmap := false, stmapPath := "",
    status := JobStatus.pending, priority := 50, createdAt := 1,
    createdBy := "h" }

/-- A fresh frame row of job `j` at the given index, eye and status. -/
def mkFrame (j : String) (i : Nat) (e : Eye) (st : FrameStatus) : FrameRow :=
  { jobId := j, frameIdx := i, eye := e, status := st, workerId := none,
    claimedAt := none, completedAt := none, retryCount := 0 }

/-- The empty store. -/
def emptyFarmDB : FarmDB :=
  { jobs := [], frames := [], workers := [] }

/-- A store in which frame 1 of job `j` is already completed while frames 0
and 2 are pending — the smallest state with a hole inside a pending run. -/
def gapDB : FarmDB :=
  { jobs := [templateJob],
    frames := [mkFrame "j" 0 Eye.left FrameStatus.pending,
               mkFrame "j" 1 Eye.left FrameStatus.completed,
               mkFrame "j" 2 Eye.left FrameStatus.pending],
    workers := [] }

/-- A frame of job `j` claimed by worker `w1` at time 0. -/
def staleClaimedFrame : FrameRow :=
  { mkFrame "j" 0 Eye.left FrameStatus.claimed with
      workerId := some "w1", claimedAt := some 0 }

/-- A store whose single frame is held by a worker that died at time 0; the
owning job sits in pool `q`. -/
def staleDB : FarmDB :=
  { jobs := [{ templateJob with poolId := "q", status := JobStatus.inProgress }],
    frames := [staleClaimedFrame],
    workers := [{ workerId := "w1", poolId := "q", hostname := "h1", ip := "",
                  status := "active", currentJobId := "j",
                  framesCompleted := 0, lastHeartbeat := 0 }] }

/-- A job specification whose range is empty (`start_frame > end_frame`). -/
def zeroFrameJob : JobRow :=
  { templateJob with jobId := "jz", startFrame := 5, endFrame := 3 }

/-- A store with one stale and one fresh worker: the stale worker `w1` holds a
claimed frame, the fresh worker `w2` holds another, and a completed frame of
`w1` records finished work. -/
def mixedWorkersDB : FarmDB :=
  { jobs := [{ templateJob with status := JobStatus.inProgress }],
    frames := [{ mkFrame "j" 0 Eye.left FrameStatus.claimed with
                   workerId := some "w1", claimedAt := some 10 },
               { mkFrame "j" 1 Eye.left FrameStatus.claimed with
                   workerId := some "w2", claimedAt := some 90 },
               { mkFrame "j" 2 Eye.left FrameStatus.completed with
                   workerId := some "w1", completedAt := some 20 }],
    workers := [{ workerId := "w1", poolId := "p", hostname := "h1", ip := "",
                  status := "active", currentJobId := "j",
                  framesCompleted := 3, lastHeartbeat := 10 },
                { workerId := "w2", poolId := "p", hostname := "h2", ip := "",
                  status := "active", currentJobId := "j",
                  framesCompleted := 1, lastHeartbeat := 95 }] }

/-- A store for exercising `complete_frames`: frame 0 pending, frame 1
claimed by `w1`, frame 2 already completed. -/
def completeDB : FarmDB :=
  { jobs := [{ templateJob with status := JobStatus.inProgress }],
    frames := [mkFrame "j" 0 Eye.left FrameStatus.pending,
               { mkFrame "j" 1 Eye.left FrameStatus.claimed with
                   workerId := some "w1", claimedAt := some 3 },
               { mkFrame "j" 2 Eye.left FrameStatus.completed with
                   completedAt := some 4 }],
    workers := [] }

/-- A store with a normal job `j` and a higher-priority excluded job `jx`,
each with one pending frame, for exercising the scheduler. -/
def c5DB : FarmDB :=
  { jobs := [templateJob,
             { templateJob with jobId := "jx", status := JobStatus.excluded,
                                priority := 90 }],
    frames := [mkFrame "j" 0 Eye.left FrameStatus.pending,
               mkFrame "jx" 0 Eye.left FrameStatus.pending],
    workers := [] }

/-! ## Shared lemmas -/

theorem foldl_release_mark_split (l : List String) (a : FarmDB) :
    l.foldl (fun acc wid =>
      { acc with frames := releaseWorkerClaims wid acc.frames,
                 workers := markWorkerOffline wid acc.workers }) a
    = { a with
          frames := l.foldl (fun fr wid => releaseWorkerClaims wid fr) a.frames,
          workers := l.foldl (fun ws wid => markWorkerOffline wid ws) a.workers } := by
  induction l generalizing a with
  | nil => rfl
  | cons w l ih =>
    simp only [List.foldl_cons]
    rw [ih]

theorem foldl_releaseWorkerClaims_eq_map (l : List String) (fr : List FrameRow) :
    l.foldl (fun fr wid => releaseWorkerClaims wid fr) fr
    = fr.map (fun f => l.foldl (fun g wid => releaseClaimRow wid g) f) := by
  induction l generalizing fr with
  | nil => simp
  | cons w l ih =>
    simp only [List.foldl_cons]
    rw [ih]
    unfold releaseWorkerClaims
    rw [List.map_map]
    rfl

theorem foldl_markWorkerOffline_eq_map (l : List String) (ws : List WorkerRow) :
    l.foldl (fun ws wid => markWorkerOffline wid ws) ws
    = ws.map (fun w => l.foldl (fun g wid => markOfflineRow wid g) w) := by
  induction l generalizing ws with
  | nil => simp
  | cons v l ih =>
    simp only [List.foldl_cons]
    rw [ih]
    unfold markWorkerOffline
    rw [List.map_map]
    rfl

theorem foldl_releaseClaimRow_eq (l : List String) (f : FrameRow) :
    l.foldl (fun g wid => releaseClaimRow wid g) f
    = if f.status = FrameStatus.claimed ∧ ∃ wid ∈ l, f.workerId = some wid then
        { f with status := FrameStatus.pending, workerId := none,
                 claimedAt := none }
      else f := by
  induction l generalizing f with
  | nil => simp
  | cons w l ih =>
    simp only [List.foldl_cons]
    by_cases hm : f.workerId = some w ∧ f.status = FrameStatus.claimed
    · have h1 : releaseClaimRow w f
          = { f with status := FrameStatus.pending, workerId := none,
                     claimedAt := none } := by
        simp [releaseClaimRow, hm.1, hm.2]
      rw [h1, ih, if_neg, if_pos]
      · exact ⟨hm.2, w, List.mem_cons_self w l, hm.1⟩
      · intro hc
        simp at hc
    · have h1 : releaseClaimRow w f = f := by
        unfold releaseClaimRow
        rw [if_neg]
        simp only [Bool.and_eq_true, beq_iff_eq]
        intro hc
        exact hm ⟨hc.1, hc.2⟩
      rw [h1, ih]
      by_cases hst : f.status = FrameStatus.claimed
      · have hw : f.workerId ≠ some w := fun h => hm ⟨h, hst⟩
        simp [hst, hw]
      · simp [hst]

theorem foldl_markOfflineRow_eq (l : List String) (w : WorkerRow) :
    l.foldl (fun g wid => markOfflineRow wid g) w
    = if w.workerId ∈ l then { w with status := "offline", currentJobId := "" }
      else w := by
  induction l generalizing w with
  | nil => simp
  | cons v l ih =>
    simp only [List.foldl_cons]
    by_cases hm : w.workerId = v
    · have h1 : markOfflineRow v w
          = { w with status := "offline", currentJobId := "" } := by
        simp [markOfflineRow, hm]
      rw [h1, ih]
      have : w.workerId ∈ v :: l := by simp [hm]
      rw [if_pos this]
      split <;> rfl
    · have h1 : markOfflineRow v w = w := by
        simp [markOfflineRow, hm]
      rw [h1, ih]
      simp [List.mem_cons, hm]

theorem cleanupOfflineWorkers_frames (db : FarmDB) (thr : Nat) :
    (cleanupOfflineWorkers db thr).frames
    = db.frames.map (fun f =>
        if f.status = FrameStatus.claimed
            ∧ ∃ wid ∈ offlineIds db thr, f.workerId = some wid then
          { f with status := FrameStatus.pending, workerId := none,
                   claimedAt := none }
        else f) := by
  unfold cleanupOfflineWorkers
  rw [foldl_release_mark_split, foldl_releaseWorkerClaims_eq_map]
  exact List.map_congr_left (fun f _ => foldl_releaseClaimRow_eq _ f)

theorem cleanupOfflineWorkers_workers (db : FarmDB) (thr : Nat) :
    (cleanupOfflineWorkers db thr).workers
    = db.workers.map (fun w =>
        if w.workerId ∈ offlineIds db thr then
          { w with status := "offline", currentJobId := "" }
        else w) := by
  unfold cleanupOfflineWorkers
  rw [foldl_release_mark_split, foldl_markWorkerOffline_eq_map]
  exact List.map_congr_left (fun w _ => foldl_markOfflineRow_eq _ w)

theorem cleanupOfflineWorkers_jobs (db : FarmDB) (thr : Nat) :
    (cleanupOfflineWorkers db thr).jobs = db.jobs := by
  unfold cleanupOfflineWorkers
  rw [foldl_release_mark_split]

theorem mem_offlineIds (db : FarmDB) (thr : Nat) (wid : String) :
    wid ∈ offlineIds db thr
    ↔ ∃ w ∈ db.workers, w.lastHeartbeat < thr ∧ w.workerId = wid := by
  simp [offlineIds, List.mem_map, List.mem_filter]
  tauto

/-! ## Claim C3 — range-task success condition -/

/-- C3, counterexample: with exit code 1 and the first output file present,
`process_frame_range` reports success, although the claim requires failure for
every nonzero exit code. -/
theorem c3_nonzero_exit_with_file_reports_success :
    processFrameRangeResult (RunOutcome.exited 1) true = true ∧ (1 : Int) ≠ 0 := by
  constructor
  · rfl
  · decide

/-- C3, amended: a range task reports success iff the converter process
returned at all (any exit code — a nonzero code is only logged) and the first
expected output file exists; timeouts and exceptions report failure; a
successful task is reconciled through `complete_frames` and a failed one
through `release_frames`. -/
theorem c3_success_iff_process_returned_and_first_file (outcome : RunOutcome)
    (firstFile : Bool) (db : FarmDB) (jobId : String) (s e : Nat) (ey : Eye)
    (w : String) (now : Nat) :
    (processFrameRangeResult outcome firstFile = true
      ↔ (∃ c, outcome = RunOutcome.exited c) ∧ firstFile = true)
    ∧ reconcileRange db jobId s e ey w now true
        = completeFrames db jobId s e ey now
    ∧ reconcileRange db jobId s e ey w now false
        = releaseFrames db jobId s e ey w := by
  refine ⟨?_, rfl, rfl⟩
  cases outcome with
  | exited c =>
    simp only [processFrameRangeResult]
    constructor
    · intro h
      exact ⟨⟨c, rfl⟩, h⟩
    · intro h
      exact h.2
  | timedOut => simp [processFrameRangeResult]
  | raised => simp [processFrameRangeResult]

/-! ## Claim C4 — reclaim sweeps do not increment the retry count -/

/-- C4, counterexample: a frame claimed at time 0 and reclaimed at time 200
(threshold 100), both by the expiry sweep inside `claim_frames` (here invoked
on pool `p`, which the owning job is not in, so only the sweep touches the
row) and by `cleanup_offline_workers`, ends pending with its assignment
cleared but its retry count still 0 — not incremented as the claim states. -/
theorem c4_reclaim_leaves_retry_count_zero :
    staleDB.frames.map (fun f => (f.status, f.retryCount))
        = [(FrameStatus.claimed, 0)]
    ∧ (claimFrames staleDB "p" "w2" 10 200 100).2.frames.map
        (fun f => (f.status, f.workerId, f.retryCount))
        = [(FrameStatus.pending, none, 0)]
    ∧ (cleanupOfflineWorkers staleDB 100).frames.map
        (fun f => (f.status, f.workerId, f.retryCount))
        = [(FrameStatus.pending, none, 0)] := by
  decide

/-- C4, amended: when a stale claimed frame is swept back to pending (by the
expiry sweep inside `claim_frames` or by the offline-worker cleanup), its
worker assignment and claim timestamp are cleared but its retry count is left
unchanged; neither sweep site changes any retry count. -/
theorem c4_sweeps_clear_assignment_and_preserve_retry (thr : Nat)
    (f : FrameRow) (db : FarmDB) (hb : Nat) :
    (sweepExpired thr f).retryCount = f.retryCount
    ∧ (f.status = FrameStatus.claimed → tsBefore f.claimedAt thr = true →
        sweepExpired thr f
          = { f with status := FrameStatus.pending, workerId := none,
                     claimedAt := none })
    ∧ (cleanupOfflineWorkers db hb).frames.map (fun g => g.retryCount)
        = db.frames.map (fun g => g.retryCount) := by
  refine ⟨?_, ?_, ?_⟩
  · unfold sweepExpired
    split <;> rfl
  · intro h1 h2
    simp [sweepExpired, h1, h2]
  · rw [cleanupOfflineWorkers_frames, List.map_map]
    refine List.map_congr_left (fun g _ => ?_)
    simp only [Function.comp_apply]
    split <;> rfl

/-- C4, witness for the amended theorem at the stale frame of `staleDB`. -/
theorem c4_sweep_witness :
    sweepExpired 100 staleClaimedFrame
      = { staleClaimedFrame with
            status := FrameStatus.pending,
            workerId := none, claimedAt := none } :=
  (c4_sweeps_clear_assignment_and_preserve_retry 100 staleClaimedFrame
    staleDB 100).2.1 rfl rfl

/-! ## Claim C6 — submission of a `start > end` job is not rejected -/

/-- C6, counterexample: submitting a job with `start_frame = 5 > 3 =
end_frame` into the empty store succeeds and inserts the job row (with zero
frame rows) — it is not rejected and the store does not stay unchanged. -/
theorem c6_zero_frame_job_accepted :
    submitJob emptyFarmDB zeroFrameJob
      = some { jobs := [zeroFrameJob], frames := [], workers := [] }
    ∧ zeroFrameJob.endFrame < zeroFrameJob.startFrame := by
  decide

/-- C6, amended: a job specification with `start_frame > end_frame` is
accepted by `submit_job` (no `InvalidArgument`): the job row is inserted, no
frame rows are created, and the call reports success. -/
theorem c6_zero_frame_job_inserts_job_row_only (db : FarmDB) (job : JobRow)
    (hrange : job.endFrame < job.startFrame)
    (hfresh : ∀ j ∈ db.jobs, j.jobId ≠ job.jobId) :
    submitJob db job = some { db with jobs := db.jobs ++ [job] } := by
  have hrows : newFrameRows job = [] := by
    unfold newFrameRows frameRange
    have h0 : job.endFrame + 1 - job.startFrame = 0 := by omega
    simp [h0]
  have hany : (db.jobs.any (fun j => j.jobId == job.jobId)) = false := by
    simp only [List.any_eq_false, beq_iff_eq]
    exact fun j hj => hfresh j hj
  unfold submitJob
  rw [hany, hrows]
  simp

/-- C6, witness for the amended theorem on the empty store. -/
theorem c6_witness :
    submitJob emptyFarmDB zeroFrameJob
      = some { emptyFarmDB with jobs := emptyFarmDB.jobs ++ [zeroFrameJob] } :=
  c6_zero_frame_job_inserts_job_row_only emptyFarmDB zeroFrameJob
    (by decide) (by intro j hj; simp [emptyFarmDB] at hj)

/-! ## Claim C7 — SBS directory creation -/

/-- C7, counterexample: with `separate_folders = false` (as in `templateJob`)
a dispatched `sbs` range creates only the output directory itself; the `SBS`
subdirectory is not among the directories created before spawning the
converter. -/
theorem c7_sbs_dir_not_created_without_separate_folders :
    templateJob.separateFolders = false
    ∧ dirsCreated templateJob Eye.sbs = [[templateJob.outputDir]]
    ∧ [templateJob.outputDir, "SBS"] ∉ dirsCreated templateJob Eye.sbs := by
  decide

/-- C7, amended: before spawning the converter on an `sbs` range,
`process_frame_range` creates the `SBS` subdirectory only when
`separate_folders` is set; otherwise it creates only the output directory
itself. -/
theorem c7_sbs_dir_only_when_separate_folders (job : JobRow) :
    (job.separateFolders = true →
      dirsCreated job Eye.sbs = [[job.outputDir, "SBS"]])
    ∧ (job.separateFolders = false →
      dirsCreated job Eye.sbs = [[job.outputDir]]) := by
  constructor <;> intro h <;> simp [dirsCreated, h]

/-- C7, witness for the amended theorem. -/
theorem c7_witness :
    dirsCreated { templateJob with separateFolders := true } Eye.sbs
      = [[templateJob.outputDir, "SBS"]] :=
  (c7_sbs_dir_only_when_separate_folders
    { templateJob with separateFolders := true }).1 rfl

/-! ## Claim C10 — offline cleanup touches only stale workers' rows -/

theorem offline_frame_cond_iff (db : FarmDB) (thr : Nat) (f : FrameRow) :
    (∃ wid ∈ offlineIds db thr, f.workerId = some wid)
    ↔ ∃ w ∈ db.workers, w.lastHeartbeat < thr ∧ f.workerId = some w.workerId := by
  constructor
  · rintro ⟨wid, hwid, hfw⟩
    obtain ⟨w, hwmem, hhb, hid⟩ := (mem_offlineIds db thr wid).1 hwid
    exact ⟨w, hwmem, hhb, hid ▸ hfw⟩
  · rintro ⟨w, hwmem, hhb, hfw⟩
    exact ⟨w.workerId, (mem_offlineIds db thr w.workerId).2 ⟨w, hwmem, hhb, rfl⟩, hfw⟩

/-- C10: `cleanup_offline_workers` changes no job row; a frame row changes
exactly when it is `claimed` by a worker whose last heartbeat predates the
threshold, and then it returns to `pending` with assignment and claim
timestamp cleared (retry count, completion timestamp and everything else
kept); a worker row changes exactly when its heartbeat is stale, and then it
is marked `offline` with its current job cleared.  In particular completed
frames and fresh workers' rows are untouched. -/
theorem c10_cleanup_touches_only_stale_workers (db : FarmDB) (thr : Nat)
    (hW : (db.workers.map (fun w => w.workerId)).Nodup) :
    (cleanupOfflineWorkers db thr).jobs = db.jobs
    ∧ (∀ (i : Nat) (f : FrameRow), db.frames[i]? = some f →
        ((f.status = FrameStatus.claimed
            ∧ ∃ w ∈ db.workers, w.lastHeartbeat < thr
                ∧ f.workerId = some w.workerId) →
          (cleanupOfflineWorkers db thr).frames[i]?
            = some { f with
                       status := FrameStatus.pending, workerId := none,
                       claimedAt := none })
        ∧ (¬(f.status = FrameStatus.claimed
            ∧ ∃ w ∈ db.workers, w.lastHeartbeat < thr
                ∧ f.workerId = some w.workerId) →
          (cleanupOfflineWorkers db thr).frames[i]? = some f))
    ∧ (∀ (i : Nat) (w : WorkerRow), db.workers[i]? = some w →
        ((w.lastHeartbeat < thr →
          (cleanupOfflineWorkers db thr).workers[i]?
            = some { w with status := "offline", currentJobId := "" })
        ∧ (¬ w.lastHeartbeat < thr →
          (cleanupOfflineWorkers db thr).workers[i]? = some w))) := by
  refine ⟨cleanupOfflineWorkers_jobs db thr, ?_, ?_⟩
  · intro i f hf
    rw [cleanupOfflineWorkers_frames, List.getElem?_map, hf]
    constructor
    · rintro ⟨hst, hoff⟩
      rw [Option.map_some']
      rw [if_pos ⟨hst, (offline_frame_cond_iff db thr f).2 hoff⟩]
    · intro hno
      rw [Option.map_some']
      rw [if_neg]
      intro hc
      exact hno ⟨hc.1, (offline_frame_cond_iff db thr f).1 hc.2⟩
  · intro i w hw
    have hwmem : w ∈ db.workers := List.getElem?_mem hw
    rw [cleanupOfflineWorkers_workers, List.getElem?_map, hw]
    constructor
    · intro hhb
      rw [Option.map_some']
      rw [if_pos ((mem_offlineIds db thr w.workerId).2 ⟨w, hwmem, hhb, rfl⟩)]
    · intro hfresh
      rw [Option.map_some']
      rw [if_neg]
      intro hc
      obtain ⟨w2, hw2mem, hhb2, hid⟩ := (mem_offlineIds db thr w.workerId).1 hc
      have : w2 = w := List.inj_on_of_nodup_map hW hw2mem hwmem hid
      exact hfresh (this ▸ hhb2)

/-- C10, witness: in `mixedWorkersDB` the cleanup at threshold 50 resets the
stale worker's claimed frame, keeps the fresh worker's claimed frame and the
completed frame, marks only the stale worker offline, and keeps the jobs. -/
theorem c10_witness :
    (cleanupOfflineWorkers mixedWorkersDB 50).jobs = mixedWorkersDB.jobs
    ∧ (cleanupOfflineWorkers mixedWorkersDB 50).frames[0]?
        = some { mkFrame "j" 0 Eye.left FrameStatus.pending with
                   completedAt := none }
    ∧ (cleanupOfflineWorkers mixedWorkersDB 50).frames[2]?
        = some { mkFrame "j" 2 Eye.left FrameStatus.completed with
                   workerId := some "w1", completedAt := some 20 } := by
  have h := c10_cleanup_touches_only_stale_workers mixedWorkersDB 50 (by decide)
  refine ⟨h.1, ?_, ?_⟩
  · have h0 := (h.2.1 0 _ rfl).1
    have hcond : (mixedWorkersDB.frames.get ⟨0, by decide⟩).status
        = FrameStatus.claimed := by decide
    refine Eq.trans (h0 ?_) (by decide)
    refine ⟨by decide, ?_⟩
    refine ⟨{ workerId := "w1", poolId := "p", hostname := "h1", ip := "",
              status := "active", currentJobId := "j",
              framesCompleted := 3, lastHeartbeat := 10 }, ?_, by decide, by decide⟩
    decide
  · have h2 := (h.2.1 2 _ rfl).2
    refine Eq.trans (h2 ?_) (by decide)
    rintro ⟨hst, -⟩
    exact absurd hst (by decide)

/-! ## Claim C2 — complete_frames -/

theorem completeRow_of_cond_false {jobId : String} {s e : Nat} {ey : Eye}
    {f : FrameRow} (now : Nat) (h : completeCond jobId s e ey f = false) :
    completeRow jobId s e ey now f = f := by
  simp [completeRow, h]

theorem completeRow_idem (jobId : String) (s e : Nat) (ey : Eye)
    (now now2 : Nat) (f : FrameRow) :
    completeRow jobId s e ey now2 (completeRow jobId s e ey now f)
      = completeRow jobId s e ey now f := by
  by_cases h : completeCond jobId s e ey f = true
  · have h2 : completeCond jobId s e ey
        { f with status := FrameStatus.completed, completedAt := some now }
        = false := by
      simp [completeCond]
    simp [completeRow, h, h2]
  · rw [completeRow_of_cond_false now (Bool.eq_false_iff.2 h),
        completeRow_of_cond_false now2 (Bool.eq_false_iff.2 h)]

theorem completeCond_iff (jobId : String) (s e : Nat) (ey : Eye) (f : FrameRow) :
    completeCond jobId s e ey f = true
    ↔ f.jobId = jobId ∧ f.eye = ey ∧ s ≤ f.frameIdx ∧ f.frameIdx ≤ e
        ∧ (f.status = FrameStatus.claimed ∨ f.status = FrameStatus.pending) := by
  simp [completeCond, and_assoc]

theorem remainingCount_eq_zero_iff (frames : List FrameRow) (jobId : String) :
    remainingCount frames jobId = 0
    ↔ ∀ f ∈ frames, f.jobId = jobId → f.status = FrameStatus.completed := by
  unfold remainingCount
  rw [List.length_eq_zero, List.filter_eq_nil_iff]
  constructor
  · intro h f hf hid
    have h2 := h f hf
    simp [hid] at h2
    exact h2
  · intro h f hf
    simp only [Bool.and_eq_true, beq_iff_eq, Bool.not_eq_true', not_and]
    intro hid
    simp [h f hf hid]

/-- C2: `complete_frames(job_id, s, e, eye, worker_id)` completes exactly the
rows of that job and eye with index in `[s, e]` whose status is `claimed` or
`pending` — the condition never looks at the row's current worker — stamping
their completion timestamp; all other rows are unchanged.  Afterwards, for
every job row with that id, being `completed` is equivalent to all of the
job's frames being `completed` (given the store invariant that an already
`completed` job has only completed frames).  Repeating the call on the same
range (at any later time, from any worker) changes nothing. -/
theorem c2_complete_frames_effect (db : FarmDB) (j : String) (s e : Nat)
    (ey : Eye) (now now2 : Nat)
    (hinv : ∀ jr ∈ db.jobs, jr.jobId = j → jr.status = JobStatus.completed →
      ∀ f ∈ db.frames, f.jobId = j → f.status = FrameStatus.completed) :
    (∀ (i : Nat) (f : FrameRow), db.frames[i]? = some f →
      ((f.jobId = j ∧ f.eye = ey ∧ s ≤ f.frameIdx ∧ f.frameIdx ≤ e
          ∧ (f.status = FrameStatus.claimed ∨ f.status = FrameStatus.pending)) →
        (completeFrames db j s e ey now).frames[i]?
          = some { f with
                     status := FrameStatus.completed,
                     completedAt := some now })
      ∧ (¬(f.jobId = j ∧ f.eye = ey ∧ s ≤ f.frameIdx ∧ f.frameIdx ≤ e
          ∧ (f.status = FrameStatus.claimed ∨ f.status = FrameStatus.pending)) →
        (completeFrames db j s e ey now).frames[i]? = some f))
    ∧ (∀ jr ∈ (completeFrames db j s e ey now).jobs, jr.jobId = j →
        (jr.status = JobStatus.completed
          ↔ ∀ f ∈ (completeFrames db j s e ey now).frames, f.jobId = j →
              f.status = FrameStatus.completed))
    ∧ completeFrames (completeFrames db j s e ey now) j s e ey now2
        = completeFrames db j s e ey now := by
  have hframes : (completeFrames db j s e ey now).frames
      = db.frames.map (completeRow j s e ey now) := rfl
  refine ⟨?_, ?_, ?_⟩
  · intro i f hf
    rw [hframes, List.getElem?_map, hf, Option.map_some']
    constructor
    · intro hc
      rw [completeRow, if_pos ((completeCond_iff j s e ey f).2 hc)]
    · intro hc
      rw [completeRow, if_neg]
      intro hb
      exact hc ((completeCond_iff j s e ey f).1 hb)
  · intro jr hjr hid
    by_cases hrem : remainingCount (db.frames.map (completeRow j s e ey now)) j = 0
    · have hjobs : (completeFrames db j s e ey now).jobs
          = db.jobs.map (fun j0 =>
              if j0.jobId == j then { j0 with status := JobStatus.completed }
              else j0) := by
        unfold completeFrames
        simp [hrem]
      constructor
      · intro _
        intro f hf hfid
        rw [hframes] at hf
        exact (remainingCount_eq_zero_iff _ j).1 hrem f hf hfid
      · intro _
        rw [hjobs] at hjr
        obtain ⟨j0, hj0, hj0eq⟩ := List.mem_map.1 hjr
        by_cases h0 : (j0.jobId == j) = true
        · rw [if_pos h0] at hj0eq
          rw [← hj0eq]
        · rw [if_neg h0] at hj0eq
          have hj : j0.jobId = j := by rw [hj0eq]; exact hid
          simp [hj] at h0
    · have hjobs : (completeFrames db j s e ey now).jobs = db.jobs := by
        unfold completeFrames
        simp [hrem]
      rw [hjobs] at hjr
      constructor
      · intro hcompl
        have hall := hinv jr hjr hid hcompl
        exfalso
        apply hrem
        rw [remainingCount_eq_zero_iff]
        intro f hf hfid
        obtain ⟨f0, hf0, hf0eq⟩ := List.mem_map.1 hf
        have hsame : f.jobId = f0.jobId := by
          rw [← hf0eq]
          unfold completeRow
          split <;> rfl
        have hpre : f0.jobId = j := by rw [← hsame, hfid]
        have hc0 : f0.status = FrameStatus.completed := hall f0 hf0 hpre
        rw [← hf0eq, completeRow_of_cond_false]
        · exact hc0
        · simp [completeCond, hc0]
      · intro hall
        exfalso
        apply hrem
        rw [remainingCount_eq_zero_iff]
        intro f hf hfid
        exact hall f (by rw [hframes]; exact hf) hfid
  · have hmap2 : (db.frames.map (completeRow j s e ey now)).map
        (completeRow j s e ey now2) = db.frames.map (completeRow j s e ey now) := by
      rw [List.map_map]
      exact List.map_congr_left (fun f _ => completeRow_idem j s e ey now now2 f)
    have hsetmap : ∀ l : List JobRow,
        (l.map (fun j0 =>
          if j0.jobId == j then { j0 with status := JobStatus.completed }
          else j0)).map (fun j0 =>
          if j0.jobId == j then { j0 with status := JobStatus.completed }
          else j0)
        = l.map (fun j0 =>
          if j0.jobId == j then { j0 with status := JobStatus.completed }
          else j0) := by
      intro l
      rw [List.map_map]
      refine List.map_congr_left (fun j0 _ => ?_)
      simp only [Function.comp_apply]
      by_cases h0 : (j0.jobId == j) = true
      · simp [h0]
      · simp [h0]
    unfold completeFrames
    simp only [hmap2]
    by_cases hrem : remainingCount (db.frames.map (completeRow j s e ey now)) j = 0
    · simp only [if_pos hrem, hsetmap]
    · simp only [if_neg hrem]

/-- C2, witness: completing range 0–2 of `completeDB` at time 7 completes the
claimed frame 1 (regardless of the worker holding it) and stamps its
completion time. -/
theorem c2_witness :
    (completeFrames completeDB "j" 0 2 Eye.left 7).frames[1]?
      = some { mkFrame "j" 1 Eye.left FrameStatus.completed with
                 workerId := some "w1", claimedAt := some 3,
                 completedAt := some 7 } := by
  have h := c2_complete_frames_effect completeDB "j" 0 2 Eye.left 7 8 (by decide)
  have h1 := (h.1 1 _ rfl).1
  refine Eq.trans (h1 ?_) (by decide)
  exact ⟨by decide, by decide, by decide, by decide, Or.inl (by decide)⟩

/-! ## Claim C8 — deterministic output paths -/

theorem digVal_digitChar10 (d : Nat) (h : d < 10) :
    digVal (digitChar10 d) = d := by
  interval_cases d <;> rfl

theorem decodeDigits_append_digit (l : List Char) (c : Char) :
    decodeDigits (l ++ [c]) = decodeDigits l * 10 + digVal c := by
  unfold decodeDigits
  rw [List.foldl_append]
  rfl

theorem decodeDigits_digitsAux (f : Nat) :
    ∀ n : Nat, n < 10 ^ f → decodeDigits (digitsAux f n) = n := by
  induction f with
  | zero =>
    intro n hn
    have : n = 0 := by simpa using hn
    subst this
    rfl
  | succ f ih =>
    intro n hn
    by_cases h10 : n < 10
    · unfold digitsAux
      rw [if_pos h10]
      show 0 * 10 + digVal (digitChar10 n) = n
      rw [digVal_digitChar10 n h10]
      omega
    · unfold digitsAux
      rw [if_neg h10]
      rw [decodeDigits_append_digit]
      have hdiv : n / 10 < 10 ^ f := by
        rw [Nat.div_lt_iff_lt_mul (by omega)]
        calc n < 10 ^ (f + 1) := hn
        _ = 10 ^ f * 10 := by rw [Nat.pow_succ]
      rw [ih (n / 10) hdiv, digVal_digitChar10 (n % 10) (Nat.mod_lt n (by omega))]
      omega

theorem decodeDigits_replicate_zero (k : Nat) (l : List Char) :
    decodeDigits (List.replicate k '0' ++ l) = decodeDigits l := by
  induction k with
  | zero => rfl
  | succ k ih =>
    rw [List.replicate_succ, List.cons_append]
    show decodeDigits (List.replicate k '0' ++ l) = decodeDigits l
    exact ih

theorem decodeDigits_decDigits (n : Nat) : decodeDigits (decDigits n) = n := by
  refine decodeDigits_digitsAux (n + 1) n ?_
  calc n < 2 ^ n := Nat.lt_two_pow n
  _ ≤ 10 ^ n := Nat.pow_le_pow_left (by omega) n
  _ ≤ 10 ^ (n + 1) := Nat.pow_le_pow_right (by omega) (Nat.le_succ n)

theorem decodeDigits_pad6 (n : Nat) : decodeDigits (pad6 n).data = n := by
  show decodeDigits (List.replicate (6 - (decDigits n).length) '0' ++ decDigits n) = n
  rw [decodeDigits_replicate_zero, decodeDigits_decDigits]

theorem pad6_data_inj {i1 i2 : Nat} (h : (pad6 i1).data = (pad6 i2).data) :
    i1 = i2 := by
  rw [← decodeDigits_pad6 i1, h, decodeDigits_pad6]

theorem append_pad6_ext_inj (pre ext : String) {i1 i2 : Nat}
    (h : pre ++ pad6 i1 ++ ext = pre ++ pad6 i2 ++ ext) : i1 = i2 := by
  have hd := congrArg String.data h
  simp only [String.data_append] at hd
  have h1 : pre.data ++ (pad6 i1).data = pre.data ++ (pad6 i2).data :=
    List.append_cancel_right hd
  exact pad6_data_inj (List.append_cancel_left h1)

theorem outputFileName_inj (clip fmt : String) {i1 i2 : Nat}
    (h : outputFileName clip i1 fmt = outputFileName clip i2 fmt) : i1 = i2 :=
  append_pad6_ext_inj (clip ++ "_") (extOf fmt) h

theorem lr_mid_ne (clip p q ext : String) :
    clip ++ "_L" ++ "_" ++ p ++ ext ≠ clip ++ "_R" ++ "_" ++ q ++ ext := by
  intro h
  have hd := congrArg String.data h
  have eL : ("_L" : String).data = ['_', 'L'] := rfl
  have eR : ("_R" : String).data = ['_', 'R'] := rfl
  have eU : ("_" : String).data = ['_'] := rfl
  simp only [String.data_append, eL, eR, eU, List.append_assoc,
    List.cons_append, List.nil_append] at hd
  have h1 := List.append_cancel_left hd
  simp only [List.cons.injEq] at h1
  exact absurd h1.2.1 (by decide)

theorem outPath_sbs (job : JobRow) (i : Nat) :
    getOutputFilePath job i Eye.sbs
      = [job.outputDir, "SBS",
         outputFileName (pyStem job.clipPath) i job.format] := rfl

theorem outPath_left (job : JobRow) (i : Nat) :
    getOutputFilePath job i Eye.left
      = if job.separateFolders then
          [job.outputDir, "L",
           outputFileName (pyStem job.clipPath) i job.format]
        else
          [job.outputDir,
           pyStem job.clipPath ++ "_L" ++ "_" ++ pad6 i ++ extOf job.format] := by
  unfold getOutputFilePath
  rw [if_neg (by decide : ¬ Eye.left = Eye.sbs)]
  simp

theorem outPath_right (job : JobRow) (i : Nat) :
    getOutputFilePath job i Eye.right
      = if job.separateFolders then
          [job.outputDir, "R",
           outputFileName (pyStem job.clipPath) i job.format]
        else
          [job.outputDir,
           pyStem job.clipPath ++ "_R" ++ "_" ++ pad6 i ++ extOf job.format] := by
  unfold getOutputFilePath
  rw [if_neg (by decide : ¬ Eye.right = Eye.sbs)]
  simp

/-- C8, counterexample: for the clip path `dir/A.braw` the source uses the
stem `A` (final component, extension dropped), not the basename `A.braw` that
the claim's "base name" wording (spec §6, bit-exact) denotes; the resulting
path differs from the spec-modelled one. -/
theorem c8_clip_label_is_stem_not_basename :
    pyBasename templateJob.clipPath = "A.braw"
    ∧ pyStem templateJob.clipPath = "A"
    ∧ getOutputFilePath templateJob 0 Eye.sbs = ["out", "SBS", "A_000000.exr"]
    ∧ getOutputFilePath templateJob 0 Eye.sbs
        ≠ specOutputFilePath templateJob 0 Eye.sbs := by
  refine ⟨rfl, rfl, rfl, ?_⟩
  decide

/-- C8, amended: the output path follows the claimed patterns with `clip`
being the clip path's final component with its extension removed
(`Path.stem`) rather than the full base name, `F` the zero-padded 6-digit
frame index and the extension chosen by the job's format; within one job,
distinct `(frame index, eye)` pairs always yield distinct paths. -/
theorem c8_output_path_patterns_and_injective (job : JobRow) (i i1 i2 : Nat)
    (e1 e2 : Eye) :
    getOutputFilePath job i Eye.sbs
      = [job.outputDir, "SBS",
         outputFileName (pyStem job.clipPath) i job.format]
    ∧ (job.separateFolders = true →
        getOutputFilePath job i Eye.left
          = [job.outputDir, "L",
             outputFileName (pyStem job.clipPath) i job.format]
        ∧ getOutputFilePath job i Eye.right
          = [job.outputDir, "R",
             outputFileName (pyStem job.clipPath) i job.format])
    ∧ (job.separateFolders = false →
        getOutputFilePath job i Eye.left
          = [job.outputDir,
             pyStem job.clipPath ++ "_L" ++ "_" ++ pad6 i ++ extOf job.format]
        ∧ getOutputFilePath job i Eye.right
          = [job.outputDir,
             pyStem job.clipPath ++ "_R" ++ "_" ++ pad6 i ++ extOf job.format])
    ∧ (getOutputFilePath job i1 e1 = getOutputFilePath job i2 e2 →
        i1 = i2 ∧ e1 = e2) := by
  refine ⟨rfl, ?_, ?_, ?_⟩
  · intro hsep
    constructor <;> simp [getOutputFilePath, hsep]
  · intro hsep
    constructor <;> simp [getOutputFilePath, hsep]
  · intro h
    cases e1 <;> cases e2
    case left.left =>
      rw [outPath_left, outPath_left] at h
      by_cases hsep : job.separateFolders = true
      · rw [if_pos hsep, if_pos hsep] at h
        simp only [List.cons.injEq] at h
        exact ⟨outputFileName_inj _ _ h.2.2.1, rfl⟩
      · rw [if_neg hsep, if_neg hsep] at h
        simp only [List.cons.injEq] at h
        exact ⟨append_pad6_ext_inj (pyStem job.clipPath ++ "_L" ++ "_")
          (extOf job.format) h.2.1, rfl⟩
    case right.right =>
      rw [outPath_right, outPath_right] at h
      by_cases hsep : job.separateFolders = true
      · rw [if_pos hsep, if_pos hsep] at h
        simp only [List.cons.injEq] at h
        exact ⟨outputFileName_inj _ _ h.2.2.1, rfl⟩
      · rw [if_neg hsep, if_neg hsep] at h
        simp only [List.cons.injEq] at h
        exact ⟨append_pad6_ext_inj (pyStem job.clipPath ++ "_R" ++ "_")
          (extOf job.format) h.2.1, rfl⟩
    case sbs.sbs =>
      rw [outPath_sbs, outPath_sbs] at h
      simp only [List.cons.injEq] at h
      exact ⟨outputFileName_inj _ _ h.2.2.1, rfl⟩
    case left.right =>
      exfalso
      rw [outPath_left, outPath_right] at h
      by_cases hsep : job.separateFolders = true
      · rw [if_pos hsep, if_pos hsep] at h
        simp only [List.cons.injEq] at h
        exact absurd h.2.1 (by decide)
      · rw [if_neg hsep, if_neg hsep] at h
        simp only [List.cons.injEq] at h
        exact absurd h.2.1 (lr_mid_ne _ _ _ _)
    case right.left =>
      exfalso
      rw [outPath_right, outPath_left] at h
      by_cases hsep : job.separateFolders = true
      · rw [if_pos hsep, if_pos hsep] at h
        simp only [List.cons.injEq] at h
        exact absurd h.2.1 (by decide)
      · rw [if_neg hsep, if_neg hsep] at h
        simp only [List.cons.injEq] at h
        exact absurd h.2.1.symm (lr_mid_ne _ _ _ _)
    case left.sbs =>
      exfalso
      rw [outPath_left, outPath_sbs] at h
      by_cases hsep : job.separateFolders = true
      · rw [if_pos hsep] at h
        simp only [List.cons.injEq] at h
        exact absurd h.2.1 (by decide)
      · rw [if_neg hsep] at h
        have hl := congrArg List.length h
        simp at hl
    case sbs.left =>
      exfalso
      rw [outPath_sbs, outPath_left] at h
      by_cases hsep : job.separateFolders = true
      · rw [if_pos hsep] at h
        simp only [List.cons.injEq] at h
        exact absurd h.2.1 (by decide)
      · rw [if_neg hsep] at h
        have hl := congrArg List.length h
        simp at hl
    case right.sbs =>
      exfalso
      rw [outPath_right, outPath_sbs] at h
      by_cases hsep : job.separateFolders = true
      · rw [if_pos hsep] at h
        simp only [List.cons.injEq] at h
        exact absurd h.2.1 (by decide)
      · rw [if_neg hsep] at h
        have hl := congrArg List.length h
        simp at hl
    case sbs.right =>
      exfalso
      rw [outPath_sbs, outPath_right] at h
      by_cases hsep : job.separateFolders = true
      · rw [if_pos hsep] at h
        simp only [List.cons.injEq] at h
        exact absurd h.2.1 (by decide)
      · rw [if_neg hsep] at h
        have hl := congrArg List.length h
        simp at hl

/-- C8, witness for the amended theorem: two concrete distinct pairs give
distinct paths, via the theorem's injectivity conjunct. -/
theorem c8_witness :
    getOutputFilePath templateJob 0 Eye.left
      ≠ getOutputFilePath templateJob 1 Eye.left := by
  intro h
  have := ((c8_output_path_patterns_and_injective templateJob 0 0 1
    Eye.left Eye.left).2.2.2 h).1
  omega

/-! ## Claim C9 — the re-render hook -/

theorem groupLoop_ne_nil (l : List Nat) (s cur : Nat) :
    groupLoop s cur l ≠ [] := by
  induction l generalizing s cur with
  | nil => simp [groupLoop]
  | cons f rest ih =>
    unfold groupLoop
    by_cases hf : f = cur + 1
    · rw [if_pos hf]
      exact ih s f
    · rw [if_neg hf]
      simp

theorem groupLoop_head (l : List Nat) (s cur : Nat) :
    ∃ p, (groupLoop s cur l).head? = some (s, p) := by
  induction l generalizing s cur with
  | nil => exact ⟨cur, rfl⟩
  | cons f rest ih =>
    unfold groupLoop
    by_cases hf : f = cur + 1
    · rw [if_pos hf]
      exact ih s f
    · rw [if_neg hf]
      exact ⟨cur, rfl⟩

theorem groupLoop_getLast? (l : List Nat) (s cur : Nat) :
    ((groupLoop s cur l).getLast?).map Prod.snd = (cur :: l).getLast? := by
  induction l generalizing s cur with
  | nil => rfl
  | cons f rest ih =>
    by_cases hf : f = cur + 1
    · have h1 : groupLoop s cur (f :: rest) = groupLoop s f rest := by
        show (if f = cur + 1 then groupLoop s f rest
              else (s, cur) :: groupLoop f f rest) = groupLoop s f rest
        rw [if_pos hf]
      rw [h1, ih s f, List.getLast?_cons_cons]
    · have h1 : groupLoop s cur (f :: rest)
          = (s, cur) :: groupLoop f f rest := by
        show (if f = cur + 1 then groupLoop s f rest
              else (s, cur) :: groupLoop f f rest)
            = (s, cur) :: groupLoop f f rest
        rw [if_neg hf]
      rw [h1]
      obtain ⟨q, tl, hq⟩ := List.exists_cons_of_ne_nil (groupLoop_ne_nil rest f f)
      rw [hq, List.getLast?_cons_cons, ← hq, ih f f, List.getLast?_cons_cons]

theorem sorted_le_getLast {l : List Nat} (h : List.Sorted (· ≤ ·) l)
    (hne : l ≠ []) : ∀ x ∈ l, x ≤ l.getLast hne := by
  induction l with
  | nil => simp
  | cons a t ih =>
    intro x hx
    cases t with
    | nil =>
      simp only [List.mem_singleton] at hx
      subst hx
      rfl
    | cons b t2 =>
      rw [List.getLast_cons (by simp : (b :: t2) ≠ [])]
      rcases List.mem_cons.1 hx with rfl | hx2
      · exact List.rel_of_sorted_cons h _ (List.getLast_mem _)
      · exact ih h.of_cons (by simp) x hx2

theorem frameRange_nodup (s e : Nat) : (frameRange s e).Nodup := by
  unfold frameRange
  refine (List.nodup_range _).map ?_
  intro a b hab
  dsimp only at hab
  omega

theorem newFrameRows_keys_nodup (job : JobRow) (h : job.eyes.Nodup) :
    ((newFrameRows job).map (fun f => (f.jobId, f.frameIdx, f.eye))).Nodup := by
  unfold newFrameRows
  rw [List.map_flatMap, List.nodup_flatMap]
  constructor
  · intro idx _
    rw [List.map_map]
    refine h.map ?_
    intro a b hab
    simpa using congrArg (fun p => p.2.2) hab
  · refine (frameRange_nodup job.startFrame job.endFrame).imp ?_
    intro a b hab x hx1 hx2
    simp only [List.map_map, List.mem_map, Function.comp_apply] at hx1 hx2
    obtain ⟨e1, -, he1⟩ := hx1
    obtain ⟨e2, -, he2⟩ := hx2
    apply hab
    have := he1.trans he2.symm
    simpa using congrArg (fun p => p.2.1) this

/-- C9: for a nonempty sorted-or-not list of bad frame indices of an existing
job, the re-render hook submits exactly one new job whose clip, output
directory, eyes, format, folder mode, color flags, stmap settings and pool
equal the source job's, whose inclusive range is `[min indices, max indices]`,
and whose priority is `min(source + 10, 100)`; the store only gains the new
job row and its frame rows — every pre-existing job and frame row (the source
job's included) is kept as is. -/
theorem c9_rerender_job (db : FarmDB) (origJobId : String) (orig : JobRow)
    (errorFrames : List Nat) (newJobId : String) (now : Nat) (hostname : String)
    (hget : getJob db origJobId = some orig)
    (hne : errorFrames ≠ [])
    (hfresh : ∀ j ∈ db.jobs, j.jobId ≠ newJobId)
    (heyes : orig.eyes.Nodup) :
    ∃ newJob db2,
      createRerenderJob db origJobId errorFrames newJobId now hostname
        = some (newJob, some db2)
      ∧ newJob.jobId = newJobId
      ∧ newJob.clipPath = orig.clipPath
      ∧ newJob.outputDir = orig.outputDir
      ∧ newJob.eyes = orig.eyes
      ∧ newJob.format = orig.format
      ∧ newJob.separateFolders = orig.separateFolders
      ∧ newJob.useAces = orig.useAces
      ∧ newJob.colorInputSpace = orig.colorInputSpace
      ∧ newJob.colorOutputSpace = orig.colorOutputSpace
      ∧ newJob.useStmap = orig.useStmap
      ∧ newJob.stmapPath = orig.stmapPath
      ∧ newJob.poolId = orig.poolId
      ∧ newJob.priority = min (orig.priority + 10) 100
      ∧ newJob.startFrame ∈ errorFrames
      ∧ (∀ x ∈ errorFrames, newJob.startFrame ≤ x)
      ∧ newJob.endFrame ∈ errorFrames
      ∧ (∀ x ∈ errorFrames, x ≤ newJob.endFrame)
      ∧ db2.jobs = db.jobs ++ [newJob]
      ∧ db2.frames = db.frames ++ newFrameRows newJob
      ∧ db2.workers = db.workers := by
  have hperm := List.perm_insertionSort (· ≤ ·) errorFrames
  have hsorted := List.sorted_insertionSort (· ≤ ·) errorFrames
  have hsne : List.insertionSort (· ≤ ·) errorFrames ≠ [] := by
    intro h0
    apply hne
    have hlen := hperm.length_eq
    rw [h0] at hlen
    exact List.length_eq_zero.1 hlen.symm
  obtain ⟨f, rest, hs⟩ := List.exists_cons_of_ne_nil hsne
  have hg0 : groupFramesToRanges errorFrames = groupLoop f f rest := by
    unfold groupFramesToRanges
    rw [hs]
  obtain ⟨r, rs, hg1⟩ := List.exists_cons_of_ne_nil (groupLoop_ne_nil rest f f)
  have hg : groupFramesToRanges errorFrames = r :: rs := hg0.trans hg1
  -- the chosen start is the head of the sorted list
  have hr1 : r.1 = f := by
    obtain ⟨p, hp⟩ := groupLoop_head rest f f
    rw [hg1] at hp
    simp only [List.head?_cons, Option.some.injEq] at hp
    rw [hp]
  -- the chosen end is the last of the sorted list
  have hr2 : ((r :: rs).getLast (by simp)).2
      = (f :: rest).getLast (by simp) := by
    have hq := groupLoop_getLast? rest f f
    rw [hg1] at hq
    rw [List.getLast?_eq_getLast (r :: rs) (by simp),
      List.getLast?_eq_getLast (f :: rest) (by simp), Option.map_some'] at hq
    exact Option.some.inj hq
  set newJob := mkManagerJob newJobId orig.clipPath orig.outputDir
    r.1 (((r :: rs).getLast (by simp)).2) orig.eyes orig.poolId
    orig.format orig.separateFolders orig.useAces orig.colorInputSpace
    orig.colorOutputSpace orig.useStmap orig.stmapPath
    (min (orig.priority + 10) 100) now hostname with hnj
  have hcall : createRerenderJob db origJobId errorFrames newJobId now hostname
      = some (newJob, submitJob db newJob) := by
    unfold createRerenderJob
    rw [hget, hg]
  have hany : (db.jobs.any (fun j => j.jobId == newJob.jobId)) = false := by
    simp only [List.any_eq_false, beq_iff_eq]
    exact fun j hj => hfresh j hj
  have hnodup : ((newFrameRows newJob).map
      (fun f => (f.jobId, f.frameIdx, f.eye))).Nodup :=
    newFrameRows_keys_nodup newJob heyes
  have hsub : submitJob db newJob
      = some { db with jobs := db.jobs ++ [newJob],
                       frames := db.frames ++ newFrameRows newJob } := by
    unfold submitJob
    rw [hany, if_neg (by simp)]
    rw [if_neg (by simp [hnodup])]
  refine ⟨newJob,
    { db with jobs := db.jobs ++ [newJob],
              frames := db.frames ++ newFrameRows newJob },
    by rw [hcall, hsub], rfl, rfl, rfl, rfl, rfl, rfl, rfl,
    rfl, rfl, rfl, rfl, rfl, rfl, ?_, ?_, ?_, ?_, rfl, rfl, rfl⟩
  · show r.1 ∈ errorFrames
    rw [hr1]
    apply hperm.mem_iff.1
    rw [hs]
    exact List.mem_cons_self f rest
  · intro x hx
    show r.1 ≤ x
    rw [hr1]
    have hx2 : x ∈ f :: rest := by
      rw [← hs]
      exact hperm.mem_iff.2 hx
    have hsorted2 : List.Sorted (· ≤ ·) (f :: rest) := by
      rw [← hs]
      exact hsorted
    rcases List.mem_cons.1 hx2 with rfl | hx3
    · rfl
    · exact List.rel_of_sorted_cons hsorted2 x hx3
  · show ((r :: rs).getLast (by simp)).2 ∈ errorFrames
    rw [hr2]
    apply hperm.mem_iff.1
    rw [hs]
    exact List.getLast_mem (by simp)
  · intro x hx
    show x ≤ ((r :: rs).getLast (by simp)).2
    rw [hr2]
    have hx2 : x ∈ f :: rest := by
      rw [← hs]
      exact hperm.mem_iff.2 hx
    have hsorted2 : List.Sorted (· ≤ ·) (f :: rest) := by
      rw [← hs]
      exact hsorted
    exact sorted_le_getLast hsorted2 (by simp) x hx2

/-- C9, witness: on `gapDB` (source job `j`, priority 50) with bad frames
`[8, 7, 40]` the hook submits a job covering 7–40 at priority 60. -/
theorem c9_witness :
    ∃ newJob db2,
      createRerenderJob gapDB "j" [8, 7, 40] "new" 9 "h"
        = some (newJob, some db2)
      ∧ newJob.startFrame = 7 ∧ newJob.endFrame = 40
      ∧ newJob.priority = 60 := by
  obtain ⟨newJob, db2, hcall, -, -, -, -, -, -, -, -, -, -, -, -, hpr, hsmem,
    hsle, hemem, hele, -, -, -⟩ :=
    c9_rerender_job gapDB "j" templateJob [8, 7, 40] "new" 9 "h" rfl
      (by decide) (by decide) (by decide)
  refine ⟨newJob, db2, hcall, ?_, ?_, ?_⟩
  · have h7 := hsle 7 (by simp)
    simp only [List.mem_cons, List.not_mem_nil, or_false] at hsmem
    rcases hsmem with h | h | h
    · rw [h] at h7
      exact absurd h7 (by decide)
    · exact h
    · rw [h] at h7
      exact absurd h7 (by decide)
  · have h40 := hele 40 (by simp)
    simp only [List.mem_cons, List.not_mem_nil, or_false] at hemem
    rcases hemem with h | h | h
    · rw [h] at h40
      exact absurd h40 (by decide)
    · rw [h] at h40
      exact absurd h40 (by decide)
    · exact h
  · rw [hpr]
    decide

/-! ## Claims C5 and C1 — the claim scheduler -/

theorem candKeyLt_irrefl (a : FrameRow × JobRow) : ¬ candKeyLt a a := by
  unfold candKeyLt
  omega

theorem candKeyLt_trans {a b c : FrameRow × JobRow} :
    candKeyLt a b → candKeyLt b c → candKeyLt a c := by
  unfold candKeyLt
  omega

theorem pickFirstMinAux_spec (lt : α → α → Prop) [DecidableRel lt]
    (htrans : ∀ {x y z : α}, lt x y → lt y z → lt x z)
    (hirr : ∀ x : α, ¬ lt x x) :
    ∀ (l : List α) (acc : Option α) (m : α),
      pickFirstMinAux lt acc l = some m →
      (acc = some m ∨ m ∈ l)
        ∧ (∀ y ∈ l, ¬ lt y m)
        ∧ (∀ a, acc = some a → (m = a ∨ lt m a)) := by
  intro l
  induction l with
  | nil =>
    intro acc m hm
    simp only [pickFirstMinAux] at hm
    refine ⟨Or.inl hm, by simp, fun a ha => Or.inl ?_⟩
    rw [ha] at hm
    exact (Option.some.inj hm).symm
  | cons x rest ih =>
    intro acc m hm
    cases acc with
    | none =>
      simp only [pickFirstMinAux] at hm
      have h := ih (some x) m hm
      refine ⟨?_, ?_, by simp⟩
      · rcases h.1 with hx | hmem
        · exact Or.inr (by rw [← Option.some.inj hx]; exact List.mem_cons_self x rest)
        · exact Or.inr (List.mem_cons_of_mem x hmem)
      · intro y hy
        rcases List.mem_cons.1 hy with hyx | hy2
        · rw [hyx]
          rcases h.2.2 x rfl with heq | hlt2
          · rw [heq]
            exact hirr x
          · intro hxy
            exact hirr x (htrans hxy hlt2)
        · exact h.2.1 y hy2
    | some a =>
      simp only [pickFirstMinAux] at hm
      by_cases hlt : lt x a
      · rw [if_pos hlt] at hm
        have h := ih (some x) m hm
        refine ⟨?_, ?_, ?_⟩
        · rcases h.1 with hx | hmem
          · exact Or.inr (by rw [← Option.some.inj hx]; exact List.mem_cons_self x rest)
          · exact Or.inr (List.mem_cons_of_mem x hmem)
        · intro y hy
          rcases List.mem_cons.1 hy with hyx | hy2
          · rw [hyx]
            rcases h.2.2 x rfl with heq | hlt2
            · rw [heq]
              exact hirr x
            · intro hxy
              exact hirr x (htrans hxy hlt2)
          · exact h.2.1 y hy2
        · intro b hb
          rcases h.2.2 x rfl with heq | hlt2
          · rw [heq]
            exact Or.inr (by rw [← Option.some.inj hb]; exact hlt)
          · exact Or.inr (by rw [← Option.some.inj hb]; exact htrans hlt2 hlt)
      · rw [if_neg hlt] at hm
        have h := ih (some a) m hm
        refine ⟨?_, ?_, ?_⟩
        · rcases h.1 with hx | hmem
          · exact Or.inl hx
          · exact Or.inr (List.mem_cons_of_mem x hmem)
        · intro y hy
          rcases List.mem_cons.1 hy with hyx | hy2
          · rw [hyx]
            intro hym
            rcases h.2.2 a rfl with heq | hlt2
            · rw [heq] at hym
              exact hlt hym
            · exact hlt (htrans hym hlt2)
          · exact h.2.1 y hy2
        · exact h.2.2

theorem pickFirstMin_spec (lt : α → α → Prop) [DecidableRel lt]
    (htrans : ∀ {x y z : α}, lt x y → lt y z → lt x z)
    (hirr : ∀ x : α, ¬ lt x x) (l : List α) (m : α)
    (hm : pickFirstMin lt l = some m) :
    m ∈ l ∧ ∀ y ∈ l, ¬ lt y m := by
  have h := pickFirstMinAux_spec lt htrans hirr l none m hm
  refine ⟨?_, h.2.1⟩
  rcases h.1 with h0 | hmem
  · cases h0
  · exact hmem

theorem jobEligible_iff (j : JobRow) :
    jobEligible j = true
    ↔ j.status ≠ JobStatus.excluded ∧ j.status ≠ JobStatus.paused
        ∧ j.status ≠ JobStatus.completed := by
  simp [jobEligible, not_or, and_assoc]

theorem mem_candPairs (jobs : List JobRow) (pool : String)
    (frames : List FrameRow) (f : FrameRow) (j : JobRow) :
    (f, j) ∈ candPairs jobs pool frames
    ↔ f ∈ frames ∧ f.status = FrameStatus.pending ∧ j ∈ jobs
        ∧ j.jobId = f.jobId ∧ j.poolId = pool ∧ jobEligible j = true := by
  unfold candPairs
  rw [List.mem_flatMap]
  constructor
  · rintro ⟨g, hg, hmem⟩
    by_cases hst : (g.status == FrameStatus.pending) = true
    · rw [if_pos hst] at hmem
      rw [List.mem_map] at hmem
      obtain ⟨j2, hj2, hj2eq⟩ := hmem
      obtain ⟨hgf, hjj⟩ := Prod.mk.inj hj2eq
      subst hgf
      subst hjj
      rw [List.mem_filter] at hj2
      have hb := hj2.2
      simp only [Bool.and_eq_true, beq_iff_eq] at hb
      exact ⟨hg, by simpa using hst, hj2.1, hb.1.1, hb.1.2, hb.2⟩
    · rw [if_neg hst] at hmem
      simp at hmem
  · rintro ⟨hf, hst, hj, hid, hpool, hel⟩
    refine ⟨f, hf, ?_⟩
    rw [if_pos (by simpa using hst)]
    rw [List.mem_map]
    refine ⟨j, ?_, rfl⟩
    rw [List.mem_filter]
    simp only [Bool.and_eq_true, beq_iff_eq]
    exact ⟨hj, ⟨⟨hid, hpool⟩, hel⟩⟩

theorem claimFrames_some_elim (db : FarmDB) (pool w : String)
    (bs now thr : Nat) (j : String) (s e : Nat) (ey : Eye) (db2 : FarmDB)
    (h : claimFrames db pool w bs now thr = (some (j, s, e, ey), db2)) :
    ∃ sel : FrameRow × JobRow,
      pickFirstMin candKeyLt
        (candPairs db.jobs pool (db.frames.map (sweepExpired thr))) = some sel
      ∧ sel.1.jobId = j ∧ sel.1.frameIdx = s ∧ sel.1.eye = ey
      ∧ ((pendingIdxsFrom (db.frames.map (sweepExpired thr)) j ey s).take
          bs).getLast? = some e
      ∧ db2 = { db with
          frames := (db.frames.map (sweepExpired thr)).map
            (claimUpdate j ey
              ((pendingIdxsFrom (db.frames.map (sweepExpired thr)) j ey s).take
                bs) w now),
          jobs := db.jobs.map (jobStartUpdate j) } := by
  simp only [claimFrames] at h
  cases hpick : pickFirstMin candKeyLt
      (candPairs db.jobs pool (db.frames.map (sweepExpired thr))) with
  | none =>
    simp only [hpick] at h
    simp at h
  | some sel =>
    simp only [hpick] at h
    cases hlast : ((pendingIdxsFrom (db.frames.map (sweepExpired thr))
        sel.1.jobId sel.1.eye sel.1.frameIdx).take bs).getLast? with
    | none =>
      simp only [hlast] at h
      simp at h
    | some endF =>
      simp only [hlast] at h
      simp only [Prod.mk.injEq, Option.some.injEq] at h
      obtain ⟨⟨hj, hs, he, hey⟩, hdb⟩ := h
      refine ⟨sel, rfl, hj, hs, hey, ?_, ?_⟩
      · rw [← hj, ← hs, ← hey, hlast, he]
      · rw [← hdb, ← hj, ← hs, ← hey]

/-- C5: when `claim_frames` returns a range, its chosen first frame is a
candidate — a pending frame (after the expiry sweep) of a job of the given
pool whose status is none of `excluded`, `paused`, `completed` — that is
minimal under the order: job priority descending, then job creation time
ascending, then frame index ascending, then eye in the fixed TEXT order
`left < right < sbs`; and no frame of an `excluded` or `paused` job is
touched by the claim: its row changes at most by the expiry sweep, which
never produces a `claimed` row. -/
theorem c5_selection_minimal_and_excluded_never_claimed
    (db : FarmDB) (pool w : String) (bs now thr : Nat)
    (j : String) (s e : Nat) (ey : Eye) (db2 : FarmDB)
    (h : claimFrames db pool w bs now thr = (some (j, s, e, ey), db2))
    (hW : (db.jobs.map (fun jr => jr.jobId)).Nodup) :
    (∃ (f : FrameRow) (jr : JobRow),
        (f, jr) ∈ candPairs db.jobs pool (db.frames.map (sweepExpired thr))
        ∧ f.jobId = j ∧ f.frameIdx = s ∧ f.eye = ey
        ∧ f.status = FrameStatus.pending
        ∧ jr.jobId = j ∧ jr.poolId = pool
        ∧ jr.status ≠ JobStatus.excluded ∧ jr.status ≠ JobStatus.paused
        ∧ jr.status ≠ JobStatus.completed
        ∧ ∀ g ∈ candPairs db.jobs pool (db.frames.map (sweepExpired thr)),
            ¬ candKeyLt g (f, jr))
    ∧ (∀ (i : Nat) (f0 : FrameRow), db.frames[i]? = some f0 →
        (∃ jr0 ∈ db.jobs, jr0.jobId = f0.jobId
          ∧ (jr0.status = JobStatus.excluded ∨ jr0.status = JobStatus.paused)) →
        db2.frames[i]? = some (sweepExpired thr f0)
          ∧ ((sweepExpired thr f0).status = FrameStatus.claimed →
              f0.status = FrameStatus.claimed)) := by
  obtain ⟨sel, hpick, hj, hs, hey, hlast, hdb⟩ :=
    claimFrames_some_elim db pool w bs now thr j s e ey db2 h
  have hspec := pickFirstMin_spec candKeyLt (fun hx hy => candKeyLt_trans hx hy)
    candKeyLt_irrefl _ sel hpick
  have hmem := (mem_candPairs db.jobs pool _ sel.1 sel.2).1 hspec.1
  have hel := (jobEligible_iff sel.2).1 hmem.2.2.2.2.2
  constructor
  · refine ⟨sel.1, sel.2, hspec.1, hj, hs, hey, hmem.2.1,
      hmem.2.2.2.1.trans hj, hmem.2.2.2.2.1, hel.1, hel.2.1, hel.2.2, ?_⟩
    exact hspec.2
  · intro i f0 hf0 hbad
    obtain ⟨jr0, hjr0, hjr0id, hjr0st⟩ := hbad
    have hneq : f0.jobId ≠ j := by
      intro heq
      have hjrsel : sel.2 ∈ db.jobs := hmem.2.2.1
      have hseljd : sel.2.jobId = j := hmem.2.2.2.1.trans hj
      have : jr0 = sel.2 :=
        List.inj_on_of_nodup_map hW hjr0 hjrsel (by rw [hjr0id, hseljd, heq])
      rcases hjr0st with hx | hx
      · exact hel.1 (by rw [← this]; exact hx)
      · exact hel.2.1 (by rw [← this]; exact hx)
    have hswept : (db.frames.map (sweepExpired thr))[i]?
        = some (sweepExpired thr f0) := by
      rw [List.getElem?_map, hf0, Option.map_some']
    constructor
    · rw [hdb]
      show ((db.frames.map (sweepExpired thr)).map (claimUpdate j ey _ w now))[i]?
        = some (sweepExpired thr f0)
      rw [List.getElem?_map, hswept, Option.map_some']
      have hfid : (sweepExpired thr f0).jobId = f0.jobId := by
        unfold sweepExpired
        split <;> rfl
      unfold claimUpdate
      rw [if_neg]
      simp only [claimCond, Bool.and_eq_true, beq_iff_eq]
      intro hc
      exact hneq (by rw [← hfid]; exact hc.1.1)
    · intro hcl
      unfold sweepExpired at hcl
      by_cases hc : (f0.status == FrameStatus.claimed
          && tsBefore f0.claimedAt thr) = true
      · rw [if_pos hc] at hcl
        simp at hcl
      · rw [if_neg hc] at hcl
        exact hcl

/-- C5, witness on `c5DB`: the scheduler claims job `j` frame 0 while the
higher-priority — but excluded — job `jx` keeps its pending frame untouched. -/
theorem c5_witness :
    (claimFrames c5DB "p" "w" 10 100 50).2.frames[1]?
      = some (sweepExpired 50 (mkFrame "jx" 0 Eye.left FrameStatus.pending)) := by
  have h : claimFrames c5DB "p" "w" 10 100 50
      = (some ("j", 0, 0, Eye.left), (claimFrames c5DB "p" "w" 10 100 50).2) :=
    Prod.ext (by decide) rfl
  exact ((c5_selection_minimal_and_excluded_never_claimed c5DB "p" "w" 10 100 50
    "j" 0 0 Eye.left _ h (by decide)).2 1 _ rfl
    ⟨{ templateJob with
         jobId := "jx", status := JobStatus.excluded, priority := 90 },
      by decide, by decide, Or.inl (by decide)⟩).1

theorem claimCond_iff (jobId : String) (ey : Eye) (toClaim : List Nat)
    (g : FrameRow) :
    claimCond jobId ey toClaim g = true
    ↔ g.jobId = jobId ∧ g.eye = ey ∧ g.frameIdx ∈ toClaim := by
  simp [claimCond, List.contains, and_assoc]

theorem mem_pendingIdxsFrom (frames : List FrameRow) (jobId : String)
    (ey : Eye) (startFrame x : Nat) :
    x ∈ pendingIdxsFrom frames jobId ey startFrame
    ↔ ∃ g ∈ frames, g.jobId = jobId ∧ g.eye = ey
        ∧ g.status = FrameStatus.pending ∧ startFrame ≤ g.frameIdx
        ∧ g.frameIdx = x := by
  unfold pendingIdxsFrom
  rw [(List.perm_insertionSort _ _).mem_iff, List.mem_map]
  constructor
  · rintro ⟨g, hg, hgx⟩
    rw [List.mem_filter] at hg
    have hb := hg.2
    simp only [Bool.and_eq_true, beq_iff_eq, decide_eq_true_eq] at hb
    exact ⟨g, hg.1, hb.1.1.1, hb.1.1.2, hb.1.2, hb.2, hgx⟩
  · rintro ⟨g, hg, h1, h2, h3, h4, h5⟩
    refine ⟨g, ?_, h5⟩
    rw [List.mem_filter]
    simp only [Bool.and_eq_true, beq_iff_eq, decide_eq_true_eq]
    exact ⟨hg, ⟨⟨⟨h1, h2⟩, h3⟩, h4⟩⟩

theorem sweepExpired_key (thr : Nat) (f : FrameRow) :
    ((sweepExpired thr f).jobId, (sweepExpired thr f).frameIdx,
      (sweepExpired thr f).eye) = (f.jobId, f.frameIdx, f.eye) := by
  unfold sweepExpired
  split <;> rfl

theorem swept_keys_nodup (db : FarmDB) (thr : Nat)
    (hkeys : (db.frames.map (fun f => (f.jobId, f.frameIdx, f.eye))).Nodup) :
    ((db.frames.map (sweepExpired thr)).map
      (fun f => (f.jobId, f.frameIdx, f.eye))).Nodup := by
  rw [List.map_map]
  have : ((fun f : FrameRow => (f.jobId, f.frameIdx, f.eye))
        ∘ sweepExpired thr) = fun f => (f.jobId, f.frameIdx, f.eye) := by
    funext f
    exact sweepExpired_key thr f
  rw [this]
  exact hkeys

/-- C1, counterexample: in `gapDB` frame 1 of job `j` is already completed
while frames 0 and 2 are pending.  `claim_frames` returns the range
`(j, 0, 2, left)` although index 1 lies in `[0, 2]`, was not pending before
the call, and is not claimed by the caller afterwards — the returned range is
not a run of consecutive previously-pending frames. -/
theorem c1_gap_counterexample :
    (claimFrames gapDB "p" "w" 10 100 50).1 = some ("j", 0, 2, Eye.left)
    ∧ gapDB.frames[1]? = some (mkFrame "j" 1 Eye.left FrameStatus.completed)
    ∧ (claimFrames gapDB "p" "w" 10 100 50).2.frames[1]?
        = some (mkFrame "j" 1 Eye.left FrameStatus.completed) := by
  decide

/-- C1, amended: when `claim_frames(pool, worker, batch_size)` returns
`(job, start, end, eye)`, the rows it marks claimed are the first
`batch_size` still-pending frames of that job and eye with index at least
`start`, taken in ascending index order but not necessarily consecutive
(frames of other statuses inside `[start, end]` are skipped and left
unchanged): writing `pend` for the ascending list of pending indices of
`(job, eye)` at or above `start` after the expiry sweep and `toClaim` for its
`batch_size`-prefix, the call returns `start` = the least such index and
`end` = the largest taken one, every taken row was pending and becomes
claimed by the caller, and every other row is exactly as the sweep left it. -/
theorem c1_claimed_set_is_batch_prefix_of_pending
    (db : FarmDB) (pool w : String) (bs now thr : Nat)
    (j : String) (s e : Nat) (ey : Eye) (db2 : FarmDB)
    (h : claimFrames db pool w bs now thr = (some (j, s, e, ey), db2))
    (hkeys : (db.frames.map (fun f => (f.jobId, f.frameIdx, f.eye))).Nodup) :
    (pendingIdxsFrom (db.frames.map (sweepExpired thr)) j ey s).take bs ≠ []
    ∧ ((pendingIdxsFrom (db.frames.map (sweepExpired thr)) j ey s).take
        bs).head? = some s
    ∧ ((pendingIdxsFrom (db.frames.map (sweepExpired thr)) j ey s).take
        bs).getLast? = some e
    ∧ ((pendingIdxsFrom (db.frames.map (sweepExpired thr)) j ey s).take
        bs).length ≤ bs
    ∧ List.Sorted (· ≤ ·) (pendingIdxsFrom (db.frames.map (sweepExpired thr)) j ey s)
    ∧ (∀ x, x ∈ pendingIdxsFrom (db.frames.map (sweepExpired thr)) j ey s
        ↔ ∃ g ∈ db.frames.map (sweepExpired thr), g.jobId = j ∧ g.eye = ey
            ∧ g.status = FrameStatus.pending ∧ s ≤ g.frameIdx ∧ g.frameIdx = x)
    ∧ (∀ x ∈ pendingIdxsFrom (db.frames.map (sweepExpired thr)) j ey s,
        x ∉ (pendingIdxsFrom (db.frames.map (sweepExpired thr)) j ey s).take bs →
        ∀ y ∈ (pendingIdxsFrom (db.frames.map (sweepExpired thr)) j ey s).take bs,
          y ≤ x)
    ∧ (∀ (i : Nat) (g : FrameRow),
        (db.frames.map (sweepExpired thr))[i]? = some g →
        ((g.jobId = j ∧ g.eye = ey ∧ g.frameIdx ∈
            (pendingIdxsFrom (db.frames.map (sweepExpired thr)) j ey s).take bs) →
          g.status = FrameStatus.pending
          ∧ db2.frames[i]? = some { g with
              status := FrameStatus.claimed, workerId := some w,
              claimedAt := some now })
        ∧ (¬(g.jobId = j ∧ g.eye = ey ∧ g.frameIdx ∈
            (pendingIdxsFrom (db.frames.map (sweepExpired thr)) j ey s).take bs) →
          db2.frames[i]? = some g)) := by
  obtain ⟨sel, hpick, hj, hs, hey, hlast, hdb⟩ :=
    claimFrames_some_elim db pool w bs now thr j s e ey db2 h
  have hspec := pickFirstMin_spec candKeyLt (fun hx hy => candKeyLt_trans hx hy)
    candKeyLt_irrefl _ sel hpick
  have hmem := (mem_candPairs db.jobs pool _ sel.1 sel.2).1 hspec.1
  have hsorted : List.Sorted (· ≤ ·)
      (pendingIdxsFrom (db.frames.map (sweepExpired thr)) j ey s) :=
    List.sorted_insertionSort (· ≤ ·) _
  have hne : (pendingIdxsFrom (db.frames.map (sweepExpired thr)) j ey s).take
      bs ≠ [] := by
    intro h0
    rw [h0] at hlast
    simp at hlast
  have hmem_s : s ∈ pendingIdxsFrom (db.frames.map (sweepExpired thr)) j ey s := by
    rw [mem_pendingIdxsFrom]
    exact ⟨sel.1, hmem.1, hj, hey, hmem.2.1, by rw [hs], hs⟩
  have hlb : ∀ x ∈ pendingIdxsFrom (db.frames.map (sweepExpired thr)) j ey s,
      s ≤ x := by
    intro x hx
    obtain ⟨g, -, -, -, -, hge, hgx⟩ := (mem_pendingIdxsFrom _ _ _ _ _).1 hx
    rw [← hgx]
    exact hge
  have hhead : (pendingIdxsFrom (db.frames.map (sweepExpired thr)) j ey s).head?
      = some s := by
    cases hp : pendingIdxsFrom (db.frames.map (sweepExpired thr)) j ey s with
    | nil =>
      rw [hp] at hmem_s
      simp at hmem_s
    | cons a t =>
      rw [List.head?_cons, Option.some.injEq]
      have h1 : s ≤ a := hlb a (by rw [hp]; exact List.mem_cons_self a t)
      have h2 : a ≤ s := by
        rw [hp] at hmem_s hsorted
        rcases List.mem_cons.1 hmem_s with heq | hmem2
        · rw [heq]
        · exact List.rel_of_sorted_cons hsorted s hmem2
      omega
  refine ⟨hne, ?_, hlast, ?_, hsorted, fun x => mem_pendingIdxsFrom _ _ _ _ x,
    ?_, ?_⟩
  · -- head of the taken prefix is the head of pend
    cases hbs : bs with
    | zero =>
      rw [hbs] at hne
      simp at hne
    | succ k =>
      cases hp : pendingIdxsFrom (db.frames.map (sweepExpired thr)) j ey s with
      | nil =>
        rw [hp] at hmem_s
        simp at hmem_s
      | cons a t =>
        rw [List.take_succ_cons, List.head?_cons]
        rw [hp, List.head?_cons] at hhead
        exact hhead
  · rw [List.length_take]
    omega
  · intro x hx hnotin y hy
    have hsplit := List.take_append_drop bs
      (pendingIdxsFrom (db.frames.map (sweepExpired thr)) j ey s)
    have hpair : List.Pairwise (· ≤ ·)
        (((pendingIdxsFrom (db.frames.map (sweepExpired thr)) j ey s).take bs)
          ++ ((pendingIdxsFrom (db.frames.map (sweepExpired thr)) j ey s).drop
            bs)) := by
      rw [hsplit]
      exact hsorted
    have hcross := (List.pairwise_append.1 hpair).2.2
    have hxdrop : x ∈ (pendingIdxsFrom (db.frames.map (sweepExpired thr)) j ey
        s).drop bs := by
      rw [← hsplit] at hx
      rcases List.mem_append.1 hx with h1 | h2
      · exact absurd h1 hnotin
      · exact h2
    exact hcross y hy x hxdrop
  · intro i g hgi
    have hg_mem : g ∈ db.frames.map (sweepExpired thr) := List.getElem?_mem hgi
    have hdbf : db2.frames[i]? = some (claimUpdate j ey
        ((pendingIdxsFrom (db.frames.map (sweepExpired thr)) j ey s).take bs)
        w now g) := by
      rw [hdb]
      show ((db.frames.map (sweepExpired thr)).map (claimUpdate j ey _ w now))[i]?
        = _
      rw [List.getElem?_map, hgi, Option.map_some']
    constructor
    · rintro ⟨h1, h2, h3⟩
      have hpend : g.status = FrameStatus.pending := by
        have hx : g.frameIdx ∈ pendingIdxsFrom
            (db.frames.map (sweepExpired thr)) j ey s :=
          List.take_subset bs _ h3
        obtain ⟨g2, hg2mem, hg2j, hg2e, hg2st, -, hg2x⟩ :=
          (mem_pendingIdxsFrom _ _ _ _ _).1 hx
        have hkey : (fun f : FrameRow => (f.jobId, f.frameIdx, f.eye)) g2
            = (fun f : FrameRow => (f.jobId, f.frameIdx, f.eye)) g := by
          simp only [Prod.mk.injEq]
          exact ⟨hg2j.trans h1.symm, hg2x, hg2e.trans h2.symm⟩
        have : g2 = g := List.inj_on_of_nodup_map
          (swept_keys_nodup db thr hkeys) hg2mem hg_mem hkey
        rw [← this]
        exact hg2st
      refine ⟨hpend, ?_⟩
      rw [hdbf]
      unfold claimUpdate
      rw [if_pos ((claimCond_iff j ey _ g).2 ⟨h1, h2, h3⟩)]
    · intro hno
      rw [hdbf]
      unfold claimUpdate
      rw [if_neg]
      intro hc
      exact hno ((claimCond_iff j ey _ g).1 hc)

/-- C1, witness for the amended theorem on `gapDB`: pending frame 2 is
claimed by the call (stamped with the worker and time) while the completed
frame 1 inside the returned range is untouched. -/
theorem c1_witness :
    (claimFrames gapDB "p" "w" 10 100 50).2.frames[2]?
      = some { mkFrame "j" 2 Eye.left FrameStatus.claimed with
                 workerId := some "w", claimedAt := some 100 } := by
  have h : claimFrames gapDB "p" "w" 10 100 50
      = (some ("j", 0, 2, Eye.left), (claimFrames gapDB "p" "w" 10 100 50).2) :=
    Prod.ext (by decide) rfl
  have hc := c1_claimed_set_is_batch_prefix_of_pending gapDB "p" "w" 10 100 50
    "j" 0 2 Eye.left _ h (by decide)
  have hrow := (hc.2.2.2.2.2.2.2 2 (sweepExpired 50
    (mkFrame "j" 2 Eye.left FrameStatus.pending)) (by decide)).1
    ⟨by decide, by decide, by decide⟩
  refine Eq.trans hrow.2 (by decide)

end BrawFarm
